import Mathlib

/-!
# coze2openai: the translation core of `server/completions.go`

A shallow embedding of the request translation (`transOpenAiMessageContent`,
`mergeSystemPromptAndUserMessage`, `makeCozeChatReq`), of the stream relay
(`handleCompletionsStream`), of the response assembler
(`parseCompletionsReturn`) and of the model registry (`NewServer` of
`server/server.go` and the choice of a bot in `Completions`), followed by
theorems about them.

Conventions of the embedding.

* A Go `any` that comes out of the JSON decoder is a `JVal`.
* A Go pointer that may be `nil` is an `Option`; a run that dereferences
  `nil` or fails an unchecked type assertion is the result `none`.
* The string constants of the `go-coze` package are not part of this
  repository; they are the fields of the parameter `k : Coze`.
* A Go map is the list of its entries (or of its keys), in the order of first
  insertion; `range` over a map visits them in that order, one of the orders
  the runtime may choose.
* The clock and the random source are arguments: `time.Now().Unix()` is a
  reading `created` or `now t`, `rand.Intn(n)` is `rnd % n`.
* Messages reached through distinct slice entries are distinct objects, as
  `makeCozeChatReq` allocates them, so the in-place update of one message is
  `List.set` at its index.
-/

namespace Coze2OpenAI

/-! ## Data model -/

/-- Dynamic value stored in a Go `any`: what the JSON decoder produces, `null`
being the nil interface. The numeric payload is never inspected by the
program. -/
inductive JVal where
  | null
  | bool (b : Bool)
  | num (n : Int)
  | str (s : String)
  | arr (l : List JVal)
  | obj (kvs : List (String × JVal))

/-- Indexing of a `map[string]any`, the map being given by its key-value pairs:
an absent key gives the nil interface. -/
def JVal.field (kvs : List (String × JVal)) (key : String) : JVal :=
  match kvs.lookup key with
  | some v => v
  | none => JVal.null

/-- Checked assertion `v.(string)`. -/
def JVal.asString : JVal → Option String
  | JVal.str s => some s
  | _ => none

/-- String constants of package `coze` used by the translation core. -/
structure Coze where
  RoleUser : String
  RoleAssistant : String
  ContentTypeText : String
  ContentTypeObjectString : String
  ContentItemTypeText : String
  ContentItemTypeImage : String

def RoleSystem : String := "system"

def FinishReasonStop : String := "stop"

def ObjectChatCompletion : String := "chat.completion"

def ObjectChatCompletionChunk : String := "chat.completion.chunk"

def sseDone : String := "[DONE]"

/-- Rendering of `fmt.Sprintf(chatIdPrefix, id)` with the format `chatcmpl-%s`. -/
def chatId (id : String) : String := "chatcmpl-" ++ id

/-- Fields of `coze.ContentItem` that the program reads or writes. -/
structure ContentItem where
  Typ : String
  Text : String
  FileUrl : String
deriving DecidableEq, Repr

/-- Value of the `Content any` field of a `coze.ChatMessage`. -/
inductive Content where
  | str (s : String)
  | items (l : List ContentItem)
  | other
deriving DecidableEq, Repr

structure ChatMessage where
  Role : String
  Content : Content
  ContentType : String
deriving DecidableEq, Repr

structure MessageWrap where
  Role : String
  Content : JVal

structure CompletionsReq where
  Model : String
  Messages : List (Option MessageWrap)
  Stream : Bool

structure ChatReq where
  Stream : Bool
  AdditionalMessages : List (Option ChatMessage)
deriving DecidableEq, Repr

/-! ## `transOpenAiMessageContent` -/

/-- Loop of lines 190-218: `items` is the slice built so far. -/
def transItems (k : Coze) (items : List ContentItem) : List JVal → List ContentItem
  | [] => items
  | JVal.obj objm :: rest =>
    match JVal.asString (JVal.field objm "type") with
    | none => transItems k items rest
    | some typ =>
      if typ ≠ "text" ∧ typ ≠ "image_url" then transItems k items rest
      else if typ = "text" then
        let text := (JVal.asString (JVal.field objm "text")).getD ""
        transItems k (items ++ [{ Typ := k.ContentItemTypeText, Text := text, FileUrl := "" }]) rest
      else if typ = "image_url" then
        match JVal.field objm "image_url" with
        | JVal.obj imgm =>
          match JVal.asString (JVal.field imgm "url") with
          | some imgurl =>
            transItems k (items ++ [{ Typ := k.ContentItemTypeImage, Text := "", FileUrl := imgurl }]) rest
          | none => transItems k items rest
        | _ => transItems k items rest
      else transItems k items rest
  | _ :: rest => transItems k items rest

def transOpenAiMessageContent (k : Coze) (role : String) (content : JVal) : Option ChatMessage :=
  match content with
  | JVal.str str => some { Role := role, Content := Content.str str, ContentType := k.ContentTypeText }
  | JVal.arr objs =>
    some { Role := role, Content := Content.items (transItems k [] objs),
           ContentType := k.ContentTypeObjectString }
  | _ => none

/-! ## `mergeSystemPromptAndUserMessage` -/

/-- Inner loop of lines 238-243: false as soon as an item is not of text type. -/
def itemsAllText (k : Coze) : List ContentItem → Bool
  | [] => true
  | item :: rest => if item.Typ ≠ k.ContentItemTypeText then false else itemsAllText k rest

/-- Loop of lines 232-245, entered with `typeText = true`; `none` is the
dereference of a nil system message. -/
def syspTypeText (k : Coze) : List (Option ChatMessage) → Option Bool
  | [] => some true
  | none :: _ => none
  | some syspm :: rest =>
    match syspm.Content with
    | Content.str _ => syspTypeText k rest
    | Content.items items => if itemsAllText k items then syspTypeText k rest else some false
    | Content.other => syspTypeText k rest

/-- Inner loop of lines 256-259. -/
def writeItemsText (buff : String) : List ContentItem → String
  | [] => buff
  | item :: rest => writeItemsText (buff ++ item.Text ++ "\n") rest

/-- Loop of lines 251-261. -/
def writeSyspText (buff : String) : List (Option ChatMessage) → Option String
  | [] => some buff
  | none :: _ => none
  | some syspm :: rest =>
    match syspm.Content with
    | Content.str str => writeSyspText (buff ++ str ++ "\n") rest
    | Content.items items => writeSyspText (writeItemsText buff items) rest
    | Content.other => writeSyspText buff rest

/-- Inner loops of lines 274-281 and 288-295 on the pair `(buff, contents)`. -/
def collectItems (k : Coze) (st : String × List ContentItem) :
    List ContentItem → String × List ContentItem
  | [] => st
  | item :: rest =>
    if item.Typ = k.ContentItemTypeText then
      collectItems k (st.1 ++ item.Text ++ "\n", st.2) rest
    else if item.Typ = k.ContentItemTypeImage then
      collectItems k (st.1, st.2 ++ [item]) rest
    else collectItems k st rest

/-- Loop of lines 269-283. -/
def collectSysp (k : Coze) (st : String × List ContentItem) :
    List (Option ChatMessage) → Option (String × List ContentItem)
  | [] => some st
  | none :: _ => none
  | some syspm :: rest =>
    match syspm.Content with
    | Content.str str => collectSysp k (st.1 ++ str ++ "\n", st.2) rest
    | Content.items items => collectSysp k (collectItems k st items) rest
    | Content.other => collectSysp k st rest

/-- Lines 285-296: the target's own content. -/
def collectUser (k : Coze) (st : String × List ContentItem) (userm : ChatMessage) :
    String × List ContentItem :=
  match userm.Content with
  | Content.str str => (st.1 ++ str, st.2)
  | Content.items items => collectItems k st items
  | Content.other => st

/-- Line 298, `contents[0].Text = buff.String()`. -/
def setHeadText (buff : String) : List ContentItem → List ContentItem
  | [] => []
  | c :: rest => { c with Text := buff } :: rest

/-- Lines 228-300: the new value of the message `userm` chosen as target. -/
def mergeInto (k : Coze) (sysp : List (Option ChatMessage)) (userm : ChatMessage) :
    Option ChatMessage :=
  let typeText : Option Bool :=
    if userm.ContentType = k.ContentTypeText then syspTypeText k sysp else some false
  match typeText with
  | none => none
  | some true =>
    match writeSyspText "" sysp with
    | none => none
    | some buff =>
      match userm.Content with
      | Content.str str => some { userm with Content := Content.str (buff ++ str) }
      | _ => none
  | some false =>
    match collectSysp k ("", [{ Typ := k.ContentTypeText, Text := "", FileUrl := "" }]) sysp with
    | none => none
    | some st =>
      let st2 := collectUser k st userm
      some { userm with ContentType := k.ContentTypeObjectString,
                        Content := Content.items (setHeadText st2.1 st2.2) }

/-- Loop of lines 226-303 with `i + 1` indices still to visit: the next one
visited is `msgs[i]`. -/
def mergeFrom (k : Coze) (sysp msgs : List (Option ChatMessage)) :
    Nat → Option (List (Option ChatMessage))
  | 0 => some msgs
  | i + 1 =>
    match msgs[i]? with
    | none => none
    | some none => none
    | some (some userm) =>
      if userm.Role = k.RoleUser then
        match mergeInto k sysp userm with
        | none => none
        | some merged => some (msgs.set i (some merged))
      else mergeFrom k sysp msgs i

def mergeSystemPromptAndUserMessage (k : Coze) (sysp msgs : List (Option ChatMessage)) :
    Option (List (Option ChatMessage)) :=
  if sysp.length > 0 then mergeFrom k sysp msgs msgs.length else some msgs

/-! ## `makeCozeChatReq` -/

/-- Loop of lines 310-316 on the pair `(sysp, msgs)`; `none` is the
dereference of a nil entry of `req.Messages`. -/
def splitMessages (k : Coze) (st : List (Option ChatMessage) × List (Option ChatMessage)) :
    List (Option MessageWrap) →
    Option (List (Option ChatMessage) × List (Option ChatMessage))
  | [] => some st
  | none :: _ => none
  | some msg :: rest =>
    if msg.Role = RoleSystem then
      splitMessages k (st.1 ++ [transOpenAiMessageContent k msg.Role msg.Content], st.2) rest
    else if msg.Role = k.RoleUser ∨ msg.Role = k.RoleAssistant then
      splitMessages k (st.1, st.2 ++ [transOpenAiMessageContent k msg.Role msg.Content]) rest
    else splitMessages k st rest

def makeCozeChatReq (k : Coze) (req : CompletionsReq) : Option ChatReq :=
  match splitMessages k ([], []) req.Messages with
  | none => none
  | some (sysp, msgs) =>
    match mergeSystemPromptAndUserMessage k sysp msgs with
    | none => none
    | some merged => some { Stream := true, AdditionalMessages := merged }

/-- Constants of the Coze v3 chat API, used for concrete evaluations. -/
def cozeV3 : Coze :=
  { RoleUser := "user", RoleAssistant := "assistant",
    ContentTypeText := "text", ContentTypeObjectString := "object_string",
    ContentItemTypeText := "text", ContentItemTypeImage := "image" }

/-! ## `handleCompletionsStream` -/

/-- Event names of the backend stream; the `switch` of lines 144-167 has the
first three as its cases and no default case. -/
inductive ChatEventType where
  | ChatInProgress
  | MessageDelta
  | ChatCompleted
  | other (name : String)
deriving DecidableEq, Repr

/-- Fields of `coze.ChatEventData` that the program reads. -/
structure ChatEventData where
  Id : String
  ChatId : String
  Content : String
deriving DecidableEq, Repr

structure ChatEvent where
  Event : ChatEventType
  Data : ChatEventData
deriving DecidableEq, Repr

structure ChoiceWrap where
  Index : Int
  Delta : Option MessageWrap
  Message : Option MessageWrap
  FinishReason : String

structure UsageWrap where
  PromptTokens : Int
  CompletionTokens : Int
  TotalTokens : Int
deriving DecidableEq, Repr

structure CompletionsRsp where
  Id : String
  Object : String
  Created : Int
  Model : String
  Choices : List ChoiceWrap
  Usage : Option UsageWrap

/-- Payload of one `c.SSEvent("", payload)` call. -/
inductive SSEData where
  | rsp (msg : CompletionsRsp)
  | str (s : String)

/-- The function of lines 321-324; `created` is the reading of `time.Now().Unix()`. -/
def makeOpenAiChatChunk (created : Int) (ev : ChatEventData) (model : String) : CompletionsRsp :=
  { Id := chatId ev.ChatId, Object := ObjectChatCompletionChunk, Created := created, Model := model,
    Choices := [{ Index := 0, Delta := some { Role := "", Content := JVal.str ev.Content },
                  Message := none, FinishReason := "" }],
    Usage := none }

/-- Assignment to fields of `msg.Choices[0]`. -/
def updChoice0 (f : ChoiceWrap → ChoiceWrap) : List ChoiceWrap → List ChoiceWrap
  | [] => []
  | c :: rest => f c :: rest

/-- Lines 147-149: the message sent for a `ChatInProgress` event. -/
def inProgressChunk (k : Coze) (created : Int) (ev : ChatEventData) (model : String) :
    CompletionsRsp :=
  let msg := makeOpenAiChatChunk created ev model
  let msg := { msg with Id := chatId ev.Id }
  let delta : MessageWrap := { Role := k.RoleAssistant, Content := JVal.str "" }
  { msg with Choices := updChoice0 (fun c => { c with Delta := some delta }) msg.Choices }

/-- Lines 158-160: the message sent for a `ChatCompleted` event. -/
def completedChunk (created : Int) (ev : ChatEventData) (model : String) : CompletionsRsp :=
  let msg := makeOpenAiChatChunk created ev model
  let msg :=
    { msg with Choices := updChoice0 (fun c => { c with FinishReason := FinishReasonStop }) msg.Choices }
  let delta : MessageWrap := { Role := "", Content := JVal.null }
  { msg with Choices := updChoice0 (fun c => { c with Delta := some delta }) msg.Choices }

/-- Loop of lines 132-169 for a run in which the client does not disconnect:
`events` is what the channel `stream` delivers before it is closed, `t` counts
the events received so far, `now t` is the clock reading while the event
number `t` is handled, and the result is the sequence of frames sent. -/
def streamLoop (k : Coze) (now : Nat → Int) (model : String) : Nat → List ChatEvent → List SSEData
  | _, [] => []
  | t, ev :: rest =>
    match ev.Event with
    | ChatEventType.ChatInProgress =>
      SSEData.rsp (inProgressChunk k (now t) ev.Data model) :: streamLoop k now model (t + 1) rest
    | ChatEventType.MessageDelta =>
      SSEData.rsp (makeOpenAiChatChunk (now t) ev.Data model) :: streamLoop k now model (t + 1) rest
    | ChatEventType.ChatCompleted =>
      [SSEData.rsp (completedChunk (now t) ev.Data model), SSEData.str sseDone]
    | ChatEventType.other _ => streamLoop k now model (t + 1) rest

def handleCompletionsStream (k : Coze) (now : Nat → Int) (model : String)
    (events : List ChatEvent) : List SSEData :=
  streamLoop k now model 0 events

/-! ## `parseCompletionsReturn` -/

structure ErrorWrap where
  Code : String
  Message : String
deriving DecidableEq, Repr

structure CompletionsError where
  Error : ErrorWrap
deriving DecidableEq, Repr

/-- Fields of `coze.ErrorWrap` that the program reads. -/
structure CozeErrorWrap where
  Code : Int
  Msg : String
deriving DecidableEq, Repr

/-- Fields of the `Usage` of a chat result that the program reads. -/
structure ChatUsage where
  InputCount : Int
  OutputCount : Int
  TokenCount : Int
deriving DecidableEq, Repr

/-- Fields of the value of `chat.GetResult` that the program reads; `Usage` and
`LastError` are pointers, nil when the backend has delivered none. -/
structure ChatResult where
  ChatId : String
  Answer : String
  Usage : Option ChatUsage
  LastError : Option CozeErrorWrap
deriving DecidableEq, Repr

/-- Decimal text of an `int`, as `strconv.Itoa` renders it. -/
def Itoa (n : Int) : String := toString n

/-- Body handed to `c.JSON` or `c.AbortWithStatusJSON`. -/
inductive JSONBody where
  | error (e : CompletionsError)
  | rsp (r : CompletionsRsp)

/-- Status and body written by a handler. -/
structure HttpReply where
  status : Nat
  body : JSONBody

/-- The function of lines 172-183, on the result that `chat.GetResult` has
delivered; `created` is the reading of `time.Now().Unix()`. `none` is the
dereference of a nil `result.Usage` at line 180, before anything is written. -/
def parseCompletionsReturn (k : Coze) (created : Int) (result : ChatResult) (model : String) :
    Option HttpReply :=
  match result.LastError with
  | some lastError =>
    let err : CompletionsError := { Error := { Code := Itoa lastError.Code, Message := lastError.Msg } }
    some { status := 500, body := JSONBody.error err }
  | none =>
    let message : MessageWrap := { Role := k.RoleAssistant, Content := JVal.str result.Answer }
    let choices : List ChoiceWrap :=
      [{ Index := 0, Delta := none, Message := some message, FinishReason := FinishReasonStop }]
    match result.Usage with
    | none => none
    | some resultUsage =>
      let usage : UsageWrap := ⟨resultUsage.InputCount, resultUsage.OutputCount, resultUsage.TokenCount⟩
      let rsp : CompletionsRsp := ⟨chatId result.ChatId, ObjectChatCompletion, created, model, choices, some usage⟩
      some { status := 200, body := JSONBody.rsp rsp }

/-! ## `NewServer` and the choice of a bot in `Completions` -/

/-- Read `m[key]` of a `map[string][]string` given by its entries: the nil
slice when the key is absent. -/
def mapGet (m : List (String × List String)) (key : String) : List String :=
  match m.lookup key with
  | some v => v
  | none => []

/-- Assignment `m[key] = v`. -/
def mapSet : List (String × List String) → String → List String → List (String × List String)
  | [], key, v => [(key, v)]
  | (k0, v0) :: rest, key, v =>
    if k0 = key then (key, v) :: rest else (k0, v0) :: mapSet rest key v

/-- Statement `delete(m, key)`. -/
def mapDelete (m : List (String × List String)) (key : String) : List (String × List String) :=
  m.filter (fun p => p.1 ≠ key)

structure account where
  Host : String
  Token : String
  Bots : List String
deriving DecidableEq, Repr

structure ServerConfig where
  Port : Int
  Endpoint : String
  Accounts : List (Option account)
  Models : List (String × List String)
  Tokens : List String
deriving DecidableEq, Repr

/-- The registries of `Server`: `bots` and `auths` are the key sets of the two
maps, `models` is the entry list of the map from model names to bot ids. -/
structure Server where
  bots : List String
  models : List (String × List String)
  auths : List String
  port : Int
  endpoint : String
deriving DecidableEq, Repr

def errNoValidAccount : String := "no valid account"

/-- Inner loop of lines 37-40 on the key set of `server.bots`. -/
def registBots (bots : List String) : List String → List String
  | [] => bots
  | bot :: rest => registBots (if bot ∈ bots then bots else bots ++ [bot]) rest

/-- Loop of lines 36-41; `none` is the dereference of a nil account. -/
def registAccounts (bots : List String) : List (Option account) → Option (List String)
  | [] => some bots
  | none :: _ => none
  | some acc :: rest => registAccounts (registBots bots acc.Bots) rest

/-- Loop of lines 47-49, the bots visited in the order of their registration. -/
def bindAll (models : List (String × List String)) :
    List String → List (String × List String)
  | [] => models
  | bot :: rest => bindAll (mapSet models "" (mapGet models "" ++ [bot])) rest

/-- Inner loop of lines 52-58. -/
def bindModel (bots : List String) (models : List (String × List String)) (model : String) :
    List String → List (String × List String)
  | [] => models
  | bot :: rest =>
    if bot ∈ bots then bindModel bots (mapSet models model (mapGet models model ++ [bot])) model rest
    else bindModel bots models model rest

/-- Loop of lines 51-65 over the entries of `cfg.Models`. -/
def bindModels (bots : List String) (models : List (String × List String)) :
    List (String × List String) → List (String × List String)
  | [] => models
  | (model, bs) :: rest =>
    let bound := bindModel bots models model bs
    if (mapGet bound model).length = 0 then bindModels bots (mapDelete bound model) rest
    else bindModels bots bound rest

/-- The function of lines 26-82 without the logging and the HTTP engine:
`none` is a nil dereference, `some (Except.error e)` the returned error. The
key set of `auths` (lines 74-76) is built like the key set of `bots`. -/
def NewServer (cfg : ServerConfig) : Option (Except String Server) :=
  match registAccounts [] cfg.Accounts with
  | none => none
  | some bots =>
    if bots.length = 0 then some (Except.error errNoValidAccount)
    else
      let models := bindModels bots (bindAll [] bots) cfg.Models
      some (Except.ok ⟨bots, models, registBots [] cfg.Tokens, cfg.Port, cfg.Endpoint⟩)

/-- Rendering of `fmt.Sprintf(errModelNotFound.Error.Message, model)`. -/
def modelNotFoundMessage (model : String) : String :=
  "The model `" ++ model ++ "` does not exist or you do not have access to it."

/-- How lines 93-105 end: the request is aborted with a status and an error
body, or `bot` is set to `s.bots[id]`, which is nil (`none`) for an id that is
not registered. -/
inductive Picked where
  | abort (status : Nat) (err : CompletionsError)
  | bot (b : Option String)
deriving DecidableEq, Repr

/-- Expression `s.bots[ids[rand.Intn(len(ids))]]`, the random source having
delivered `rnd`; `none` is the failure of `rand.Intn(0)`. -/
def drawBot (s : Server) (ids : List String) (rnd : Nat) : Option Picked :=
  if ids.length = 0 then none
  else
    match ids[rnd % ids.length]? with
    | none => none
    | some id => some (Picked.bot (if id ∈ s.bots then some id else none))

/-- Lines 93-105 of `Completions`. -/
def pickBot (s : Server) (reqModel : String) (rnd : Nat) : Option Picked :=
  let found := s.models.lookup reqModel
  if found.isNone ∧ s.models.length > 1 then
    some (Picked.abort 400 ⟨⟨"model_not_found", modelNotFoundMessage reqModel⟩⟩)
  else if s.models.length = 1 then drawBot s (mapGet s.models "") rnd
  else drawBot s (found.getD []) rnd

/-! ## Vocabulary of the specification -/

/-- Concatenation of a list of strings, in order. -/
def catAll : List String → String
  | [] => ""
  | s :: rest => s ++ catAll rest

/-- The `join(parts, sep)` of the specification. -/
def joinWith (sep : String) : List String → String
  | [] => ""
  | [s] => s
  | s :: rest => s ++ sep ++ joinWith sep rest

def isTextPart (k : Coze) (item : ContentItem) : Bool := item.Typ = k.ContentItemTypeText

def isImagePart (k : Coze) (item : ContentItem) : Bool := item.Typ = k.ContentItemTypeImage

/-- Text fragments of a message: a Text is one fragment, each TextPart of a
Parts is one fragment. -/
def textFrags (k : Coze) (m : ChatMessage) : List String :=
  match m.Content with
  | Content.str s => [s]
  | Content.items l => (l.filter (isTextPart k)).map (fun item => item.Text)
  | Content.other => []

/-- Image parts of a message, in order. -/
def imagesOf (k : Coze) (m : ChatMessage) : List ContentItem :=
  match m.Content with
  | Content.items l => l.filter (isImagePart k)
  | _ => []

/-- Text the target itself contributes to the leading TextPart of a mixed
merge: a Text contributes its text, a Parts contributes each of its text
fragments followed by a newline. -/
def ownText (k : Coze) (m : ChatMessage) : String :=
  match m.Content with
  | Content.str s => s
  | Content.items _ => catAll ((textFrags k m).map (fun s => s ++ "\n"))
  | Content.other => ""

/-- Text the system messages contribute to a merge: each text fragment
followed by a newline. -/
def syspText (k : Coze) (sysp : List ChatMessage) : String :=
  catAll ((sysp.flatMap (textFrags k)).map (fun s => s ++ "\n"))

/-- A normalized message: Text tagged with the text content type, or Parts
tagged with the object-string content type whose parts are TextParts and
ImageParts only. -/
def normalized (k : Coze) (m : ChatMessage) : Bool :=
  match m.Content with
  | Content.str _ => m.ContentType = k.ContentTypeText
  | Content.items l =>
    m.ContentType = k.ContentTypeObjectString ∧ l.all (fun item => isTextPart k item || isImagePart k item)
  | Content.other => false

/-- The `type` field of an element of a content list, when the element is an
object and the field is a string. -/
def elemType : JVal → Option String
  | JVal.obj objm => JVal.asString (JVal.field objm "type")
  | _ => none

/-- The `text` field of an element, the empty string when it is missing or
not a string. -/
def elemText : JVal → String
  | JVal.obj objm => (JVal.asString (JVal.field objm "text")).getD ""
  | _ => ""

/-- The string `url` field of the nested `image_url` object of an element. -/
def elemImageUrl : JVal → Option String
  | JVal.obj objm =>
    match JVal.field objm "image_url" with
    | JVal.obj imgm => JVal.asString (JVal.field imgm "url")
    | _ => none
  | _ => none

def isTextElem (e : JVal) : Bool := elemType e = some "text"

/-- An element of type `image_url` with a nested string `url`. -/
def isImageElem (e : JVal) : Bool := elemType e = some "image_url" ∧ (elemImageUrl e).isSome

/-- The part an element of a content list is normalized to, if any (§4.1). -/
def keptPart (k : Coze) (e : JVal) : Option ContentItem :=
  if elemType e = some "text" then
    some { Typ := k.ContentItemTypeText, Text := elemText e, FileUrl := "" }
  else if elemType e = some "image_url" then
    (elemImageUrl e).map (fun url => { Typ := k.ContentItemTypeImage, Text := "", FileUrl := url })
  else none

/-- The messages of a request restricted to the user and assistant roles, in
their original order. -/
def keptMessages (k : Coze) (l : List MessageWrap) : List MessageWrap :=
  l.filter (fun m => m.Role = k.RoleUser ∨ m.Role = k.RoleAssistant)

/-- A chunk that carries `finish_reason = "stop"`. -/
def hasStop (c : CompletionsRsp) : Bool :=
  c.Choices.any (fun ch => ch.FinishReason = FinishReasonStop)

/-- Chunks sent for a run of `ChatInProgress` and `MessageDelta` events, the
first of which is event number `t`. -/
def leadingChunks (k : Coze) (now : Nat → Int) (model : String) :
    Nat → List ChatEvent → List CompletionsRsp
  | _, [] => []
  | t, e :: rest =>
    (if e.Event = ChatEventType.ChatInProgress then inProgressChunk k (now t) e.Data model
     else makeOpenAiChatChunk (now t) e.Data model) :: leadingChunks k now model (t + 1) rest

/-- Content that is a string or a list. -/
def isStrOrList : JVal → Bool
  | JVal.str _ => true
  | JVal.arr _ => true
  | _ => false

/-- An event whose name is one of the three cases of the relay's `switch`. -/
def isKnownEvent (e : ChatEvent) : Bool :=
  match e.Event with
  | ChatEventType.other _ => false
  | _ => true

/-- An InProgress or Delta event. -/
def isProgressEvent (e : ChatEvent) : Bool :=
  e.Event = ChatEventType.ChatInProgress ∨ e.Event = ChatEventType.MessageDelta

/-- A frame with the clock reading of its chunk set to zero. -/
def untimed : SSEData → SSEData
  | SSEData.rsp msg => SSEData.rsp { msg with Created := 0 }
  | SSEData.str s => SSEData.str s

/-- The sentinel frame. -/
def isDoneFrame : SSEData → Bool
  | SSEData.str s => s = sseDone
  | SSEData.rsp _ => false

/-- The `id` of every chunk of a frame sequence, in order. -/
def chunkIds : List SSEData → List String
  | [] => []
  | SSEData.rsp msg :: rest => msg.Id :: chunkIds rest
  | SSEData.str _ :: rest => chunkIds rest

/-- The content-type tag of a message agrees with its content variant. -/
def tagAgrees (k : Coze) (m : ChatMessage) : Bool :=
  match m.Content with
  | Content.str _ => m.ContentType = k.ContentTypeText
  | Content.items _ => m.ContentType = k.ContentTypeObjectString
  | Content.other => false

/-- Every entry of a model registry is a non-empty list of registered bot
identifiers. -/
def entriesOk (bots : List String) (models : List (String × List String)) : Prop :=
  ∀ p ∈ models, p.2 ≠ [] ∧ ∀ id ∈ p.2, id ∈ bots

/-- The claimed text of the leading TextPart of a mixed merge: the system
text fragments each followed by a newline, followed by the target's own text
fragments. -/
def claimedLeadText (k : Coze) (sysp : List ChatMessage) (target : ChatMessage) : String :=
  syspText k sysp ++ catAll (textFrags k target)

/-- The same claimed text read with a newline after every fragment, those of
the target included. -/
def claimedLeadTextEach (k : Coze) (sysp : List ChatMessage) (target : ChatMessage) : String :=
  syspText k sysp ++ catAll ((textFrags k target).map (fun s => s ++ "\n"))

/-! ## Concrete inputs -/

def sysConcise : ChatMessage :=
  { Role := "system", Content := Content.str "Be concise.", ContentType := "text" }

def sysImage : ChatMessage :=
  { Role := "system",
    Content := Content.items [{ Typ := "image", Text := "", FileUrl := "http://x/a.png" }],
    ContentType := "object_string" }

def userHi : ChatMessage := { Role := "user", Content := Content.str "Hi", ContentType := "text" }

def userParts : ChatMessage :=
  { Role := "user",
    Content := Content.items [{ Typ := "text", Text := "Hi", FileUrl := "" },
                              { Typ := "image", Text := "", FileUrl := "http://x/b.png" }],
    ContentType := "object_string" }

/-- A content list with two text elements (one without `text`), an unknown
type, a well-formed and a malformed image element, and a non-object. -/
def sampleParts : List JVal :=
  [JVal.obj [("type", JVal.str "text"), ("text", JVal.str "a")],
   JVal.obj [("type", JVal.str "video"), ("text", JVal.str "v")],
   JVal.obj [("type", JVal.str "image_url"), ("image_url", JVal.obj [("url", JVal.str "u")])],
   JVal.obj [("type", JVal.str "image_url"), ("image_url", JVal.str "u")],
   JVal.obj [("type", JVal.str "text"), ("text", JVal.num 1)],
   JVal.num 3]

/-- A request with a system message, two user messages and an assistant
message between them. -/
def sampleRequest : List MessageWrap :=
  [{ Role := "system", Content := JVal.str "Be concise." },
   { Role := "user", Content := JVal.str "One" },
   { Role := "assistant", Content := JVal.str "Ok" },
   { Role := "user", Content := JVal.arr sampleParts },
   { Role := "tool", Content := JVal.str "ignored" }]

/-- The event sequence `[InProgress, Delta("Hi"), Delta(" there"), Completed]`
of the chat `c1`, followed by one more event. -/
def sampleEvents : List ChatEvent :=
  [{ Event := ChatEventType.ChatInProgress, Data := { Id := "c1", ChatId := "", Content := "" } },
   { Event := ChatEventType.MessageDelta, Data := { Id := "m1", ChatId := "c1", Content := "Hi" } },
   { Event := ChatEventType.MessageDelta,
     Data := { Id := "m1", ChatId := "c1", Content := " there" } },
   { Event := ChatEventType.ChatCompleted, Data := { Id := "c1", ChatId := "", Content := "" } },
   { Event := ChatEventType.MessageDelta, Data := { Id := "m2", ChatId := "c1", Content := "x" } }]

def assistantOk : ChatMessage :=
  { Role := "assistant", Content := Content.str "Ok", ContentType := "text" }

/-- A configuration with two bots and one model bound to a registered bot;
the model `ghost` names no registered bot. -/
def sampleConfig : ServerConfig :=
  { Port := 8080, Endpoint := "/v1/chat/completions",
    Accounts := [some { Host := "h", Token := "t", Bots := ["b1", "b2"] }],
    Models := [("gpt-4", ["b2", "zz"]), ("ghost", ["zz"])],
    Tokens := [] }

/-- The server that `NewServer` builds from `sampleConfig`. -/
def sampleServer : Server :=
  { bots := ["b1", "b2"], models := [("", ["b1", "b2"]), ("gpt-4", ["b2"])], auths := [],
    port := 8080, endpoint := "/v1/chat/completions" }

/-- The result `ChatResult{answer: "Hi there", usage: {2, 3, 5}}`. -/
def sampleResult : ChatResult :=
  { ChatId := "c1", Answer := "Hi there", Usage := some ⟨2, 3, 5⟩, LastError := none }

/-- An error-free result of a chat whose stream delivered no usage. -/
def sampleResultNoUsage : ChatResult :=
  { ChatId := "c1", Answer := "Hi there", Usage := none, LastError := none }

/-- A result that carries the backend error 702. -/
def sampleFailure : ChatResult :=
  { ChatId := "c1", Answer := "", Usage := none, LastError := some ⟨702, "quota exceeded"⟩ }

/-- The events of `sampleEvents` with a `conversation.message.completed`
event between the two deltas. -/
def sampleEventsNoise : List ChatEvent :=
  [{ Event := ChatEventType.ChatInProgress, Data := { Id := "c1", ChatId := "", Content := "" } },
   { Event := ChatEventType.MessageDelta, Data := { Id := "m1", ChatId := "c1", Content := "Hi" } },
   { Event := ChatEventType.other "conversation.message.completed",
     Data := { Id := "m1", ChatId := "c1", Content := "Hi there" } },
   { Event := ChatEventType.MessageDelta,
     Data := { Id := "m1", ChatId := "c1", Content := " there" } }]

/-- A configuration with one bot and exactly one model, bound to that bot. -/
def oneModelConfig : ServerConfig :=
  { Port := 8080, Endpoint := "/v1/chat/completions",
    Accounts := [some { Host := "h", Token := "t", Bots := ["b1"] }],
    Models := [("gpt-4", ["b1"])],
    Tokens := [] }

/-- The server that `NewServer` builds from `oneModelConfig`. -/
def oneModelServer : Server :=
  { bots := ["b1"], models := [("", ["b1"]), ("gpt-4", ["b1"])], auths := [],
    port := 8080, endpoint := "/v1/chat/completions" }

/-! ## Lemmas on the accumulating loops -/

theorem catAll_append (xs ys : List String) : catAll (xs ++ ys) = catAll xs ++ catAll ys := by
  induction xs with
  | nil => simp [catAll]
  | cons x xs ih => simp [catAll, ih, String.append_assoc]

theorem joinWith_append_sep (sep : String) (xs : List String) (h : xs ≠ []) :
    joinWith sep xs ++ sep = catAll (xs.map (fun s => s ++ sep)) := by
  induction xs with
  | nil => exact absurd rfl h
  | cons x xs ih =>
    cases xs with
    | nil => simp [joinWith, catAll]
    | cons y ys =>
      have ih2 := ih (by simp)
      simp only [joinWith, List.map, catAll] at ih2 ⊢
      rw [String.append_assoc, String.append_assoc, ih2]
      simp [String.append_assoc]

theorem writeItemsText_eq (buff : String) (items : List ContentItem) :
    writeItemsText buff items = buff ++ catAll (items.map (fun item => item.Text ++ "\n")) := by
  induction items generalizing buff with
  | nil => simp [writeItemsText, catAll]
  | cons item rest ih => simp [writeItemsText, catAll, ih, String.append_assoc]

theorem itemsAllText_iff (k : Coze) (items : List ContentItem) :
    itemsAllText k items = true ↔ ∀ item ∈ items, item.Typ = k.ContentItemTypeText := by
  induction items with
  | nil => simp [itemsAllText]
  | cons item rest ih =>
    by_cases h : item.Typ = k.ContentItemTypeText <;> simp [itemsAllText, h, ih]

theorem filter_text_of_all (k : Coze) (items : List ContentItem)
    (h : ∀ item ∈ items, item.Typ = k.ContentItemTypeText) :
    items.filter (isTextPart k) = items := by
  apply List.filter_eq_self.mpr
  intro item hmem
  simp [isTextPart, h item hmem]

theorem collectItems_eq (k : Coze) (hti : k.ContentItemTypeText ≠ k.ContentItemTypeImage)
    (st : String × List ContentItem) (items : List ContentItem) :
    collectItems k st items =
      (st.1 ++ catAll (((items.filter (isTextPart k)).map (fun item => item.Text)).map
          (fun s => s ++ "\n")),
       st.2 ++ items.filter (isImagePart k)) := by
  induction items generalizing st with
  | nil => simp [collectItems, catAll]
  | cons item rest ih =>
    by_cases h1 : item.Typ = k.ContentItemTypeText
    · have h2 : item.Typ ≠ k.ContentItemTypeImage := fun h => hti (h1.symm.trans h)
      simp [collectItems, h1, ih, isTextPart, isImagePart, catAll, String.append_assoc, hti]
    · by_cases h2 : item.Typ = k.ContentItemTypeImage
      · simp [collectItems, h1, h2, ih, isTextPart, isImagePart, catAll, Ne.symm hti]
      · simp [collectItems, h1, h2, ih, isTextPart, isImagePart, catAll]

/-- A normalized message without image part has TextParts only. -/
theorem all_text_of_no_image (k : Coze) (s : ChatMessage) (l : List ContentItem)
    (hc : s.Content = Content.items l) (himg : imagesOf k s = [])
    (hn : normalized k s = true) : ∀ item ∈ l, item.Typ = k.ContentItemTypeText := by
  intro item hmem
  simp only [normalized, hc, Bool.decide_and, Bool.and_eq_true, decide_eq_true_eq,
    List.all_eq_true, Bool.or_eq_true, isTextPart, isImagePart] at hn
  simp only [imagesOf, hc, List.filter_eq_nil_iff, isImagePart, decide_eq_true_eq] at himg
  rcases hn.2 item hmem with h | h
  · exact h
  · exact absurd h (himg item hmem)

theorem writeSyspText_eq (k : Coze) (buff : String) (sysp : List ChatMessage)
    (h : ∀ s ∈ sysp, imagesOf k s = [] ∧ normalized k s = true) :
    writeSyspText buff (sysp.map some) =
      some (buff ++ catAll ((sysp.flatMap (textFrags k)).map (fun s => s ++ "\n"))) := by
  induction sysp generalizing buff with
  | nil => simp [writeSyspText, catAll]
  | cons s rest ih =>
    have hrest : ∀ s ∈ rest, imagesOf k s = [] ∧ normalized k s = true :=
      fun x hx => h x (List.mem_cons_of_mem _ hx)
    have hs := h s (List.mem_cons_self _ _)
    cases hc : s.Content with
    | str str =>
      simp [writeSyspText, hc, ih _ hrest, textFrags, catAll, String.append_assoc]
    | items l =>
      have hall := all_text_of_no_image k s l hc hs.1 hs.2
      simp [writeSyspText, hc, ih _ hrest, textFrags, catAll_append, String.append_assoc,
        writeItemsText_eq, filter_text_of_all k l hall, List.map_map, Function.comp_def]
    | other => simp [normalized, hc] at hs

theorem syspTypeText_pure (k : Coze) (sysp : List ChatMessage)
    (h : ∀ s ∈ sysp, imagesOf k s = [] ∧ normalized k s = true) :
    syspTypeText k (sysp.map some) = some true := by
  induction sysp with
  | nil => simp [syspTypeText]
  | cons s rest ih =>
    have hrest : ∀ s ∈ rest, imagesOf k s = [] ∧ normalized k s = true :=
      fun x hx => h x (List.mem_cons_of_mem _ hx)
    have hs := h s (List.mem_cons_self _ _)
    cases hc : s.Content with
    | str str => simp [syspTypeText, hc, ih hrest]
    | items l =>
      have hall := (itemsAllText_iff k l).mpr (all_text_of_no_image k s l hc hs.1 hs.2)
      simp [syspTypeText, hc, ih hrest, hall]
    | other => simp [normalized, hc] at hs

theorem syspTypeText_total (k : Coze) (sysp : List ChatMessage) :
    ∃ b, syspTypeText k (sysp.map some) = some b := by
  induction sysp with
  | nil => exact ⟨true, by simp [syspTypeText]⟩
  | cons s rest ih =>
    cases hc : s.Content with
    | str str => simpa [syspTypeText, hc] using ih
    | items l =>
      by_cases hall : itemsAllText k l = true
      · simpa [syspTypeText, hc, hall] using ih
      · exact ⟨false, by simp [syspTypeText, hc, hall]⟩
    | other => simpa [syspTypeText, hc] using ih

theorem syspTypeText_image (k : Coze) (hti : k.ContentItemTypeText ≠ k.ContentItemTypeImage)
    (sysp : List ChatMessage) (h : ∃ s ∈ sysp, imagesOf k s ≠ []) :
    syspTypeText k (sysp.map some) = some false := by
  induction sysp with
  | nil => simp at h
  | cons s rest ih =>
    cases hc : s.Content with
    | str str =>
      have : ∃ s ∈ rest, imagesOf k s ≠ [] := by
        obtain ⟨x, hx, hx2⟩ := h
        rcases List.mem_cons.mp hx with rfl | hx
        · simp [imagesOf, hc] at hx2
        · exact ⟨x, hx, hx2⟩
      simp [syspTypeText, hc, ih this]
    | items l =>
      by_cases hall : itemsAllText k l = true
      · have hall2 := (itemsAllText_iff k l).mp hall
        have : ∃ s ∈ rest, imagesOf k s ≠ [] := by
          obtain ⟨x, hx, hx2⟩ := h
          rcases List.mem_cons.mp hx with rfl | hx
          · exfalso
            apply hx2
            simp only [imagesOf, hc, List.filter_eq_nil_iff, isImagePart, decide_eq_true_eq]
            intro item hmem himg
            exact hti ((hall2 item hmem).symm.trans himg)
          · exact ⟨x, hx, hx2⟩
        simp [syspTypeText, hc, hall, ih this]
      · simp [syspTypeText, hc, hall]
    | other =>
      have : ∃ s ∈ rest, imagesOf k s ≠ [] := by
        obtain ⟨x, hx, hx2⟩ := h
        rcases List.mem_cons.mp hx with rfl | hx
        · simp [imagesOf, hc] at hx2
        · exact ⟨x, hx, hx2⟩
      simp [syspTypeText, hc, ih this]

theorem collectSysp_eq (k : Coze) (hti : k.ContentItemTypeText ≠ k.ContentItemTypeImage)
    (st : String × List ContentItem) (sysp : List ChatMessage) :
    collectSysp k st (sysp.map some) =
      some (st.1 ++ catAll ((sysp.flatMap (textFrags k)).map (fun s => s ++ "\n")),
            st.2 ++ sysp.flatMap (imagesOf k)) := by
  induction sysp generalizing st with
  | nil => simp [collectSysp, catAll]
  | cons s rest ih =>
    cases hc : s.Content with
    | str str => simp [collectSysp, hc, ih, textFrags, imagesOf, catAll, String.append_assoc]
    | items l =>
      simp [collectSysp, hc, ih, textFrags, imagesOf, catAll_append, String.append_assoc,
        collectItems_eq k hti]
    | other => simp [collectSysp, hc, ih, textFrags, imagesOf]

theorem collectSysp_total (k : Coze) (st : String × List ContentItem) (sysp : List ChatMessage) :
    ∃ st2, collectSysp k st (sysp.map some) = some st2 := by
  induction sysp generalizing st with
  | nil => exact ⟨st, by simp [collectSysp]⟩
  | cons s rest ih =>
    cases hc : s.Content with
    | str str => simpa [collectSysp, hc] using ih _
    | items l => simpa [collectSysp, hc] using ih _
    | other => simpa [collectSysp, hc] using ih _

/-! ## Lemmas on the merge of one target -/

theorem mergeInto_text (k : Coze) (sysp : List ChatMessage) (target : ChatMessage) (u : String)
    (hsys : ∀ s ∈ sysp, imagesOf k s = [] ∧ normalized k s = true)
    (hty : target.ContentType = k.ContentTypeText) (hc : target.Content = Content.str u) :
    mergeInto k (sysp.map some) target =
      some { target with Content := Content.str (syspText k sysp ++ u) } := by
  simp [mergeInto, hty, syspTypeText_pure k sysp hsys, writeSyspText_eq k "" sysp hsys, hc,
    syspText]

theorem mergeInto_mixed (k : Coze) (hti : k.ContentItemTypeText ≠ k.ContentItemTypeImage)
    (sysp : List ChatMessage) (target : ChatMessage)
    (hmix : target.ContentType ≠ k.ContentTypeText ∨ ∃ s ∈ sysp, imagesOf k s ≠ []) :
    mergeInto k (sysp.map some) target =
      some { target with
        ContentType := k.ContentTypeObjectString,
        Content := Content.items
          ({ Typ := k.ContentTypeText, Text := syspText k sysp ++ ownText k target, FileUrl := "" }
            :: (sysp.flatMap (imagesOf k) ++ imagesOf k target)) } := by
  have htt : (if target.ContentType = k.ContentTypeText then syspTypeText k (sysp.map some)
      else some false) = some false := by
    by_cases h : target.ContentType = k.ContentTypeText
    · rcases hmix with h2 | h2
      · exact absurd h h2
      · simp [h, syspTypeText_image k hti sysp h2]
    · simp [h]
  unfold mergeInto
  simp only [htt, collectSysp_eq k hti]
  cases hc : target.Content with
  | str str =>
    simp [collectUser, hc, setHeadText, syspText, ownText, imagesOf, String.append_assoc]
  | items l =>
    simp [collectUser, hc, setHeadText, syspText, ownText, imagesOf, textFrags,
      collectItems_eq k hti, String.append_assoc]
  | other => simp [collectUser, hc, setHeadText, syspText, ownText, imagesOf]

theorem mergeInto_total (k : Coze) (hk : k.ContentTypeText ≠ k.ContentTypeObjectString)
    (sysp : List ChatMessage) (target : ChatMessage) (hn : normalized k target = true) :
    ∃ merged, mergeInto k (sysp.map some) target = some merged ∧ merged.Role = target.Role := by
  obtain ⟨b, hb⟩ := syspTypeText_total k sysp
  by_cases hty : target.ContentType = k.ContentTypeText
  · cases b with
    | true =>
      cases hc : target.Content with
      | str str =>
        obtain ⟨buff, h1⟩ : ∃ buff, writeSyspText "" (sysp.map some) = some buff := by
          have hgen : ∀ (l : List ChatMessage) (b0 : String),
              ∃ buff, writeSyspText b0 (l.map some) = some buff := by
            intro l
            induction l with
            | nil => exact fun b0 => ⟨b0, by simp [writeSyspText]⟩
            | cons s rest ih =>
              intro b0
              cases hs : s.Content with
              | str x => simpa [writeSyspText, hs] using ih _
              | items x => simpa [writeSyspText, hs] using ih _
              | other => simpa [writeSyspText, hs] using ih _
          exact hgen sysp ""
        exact ⟨{ target with Content := Content.str (buff ++ str) },
          by simp [mergeInto, hty, hb, h1, hc], rfl⟩
      | items l =>
        simp [normalized, hc, hty, hk] at hn
      | other => simp [normalized, hc] at hn
    | false =>
      obtain ⟨st2, h2⟩ := collectSysp_total k
        ("", [{ Typ := k.ContentTypeText, Text := "", FileUrl := "" }]) sysp
      exact ⟨{ target with ContentType := k.ContentTypeObjectString,
                           Content := Content.items (setHeadText (collectUser k st2 target).1
                             (collectUser k st2 target).2) },
        by simp [mergeInto, hty, hb, h2], rfl⟩
  · obtain ⟨st2, h2⟩ := collectSysp_total k
      ("", [{ Typ := k.ContentTypeText, Text := "", FileUrl := "" }]) sysp
    exact ⟨{ target with ContentType := k.ContentTypeObjectString,
                         Content := Content.items (setHeadText (collectUser k st2 target).1
                           (collectUser k st2 target).2) },
      by simp [mergeInto, hty, h2], rfl⟩

/-! ## Lemmas on the backward scan -/

theorem mergeFrom_no_user (k : Coze) (sysp : List (Option ChatMessage)) (msgs : List ChatMessage)
    (n : Nat) (hn : n ≤ msgs.length)
    (hno : ∀ j m, j < n → msgs[j]? = some m → m.Role ≠ k.RoleUser) :
    mergeFrom k sysp (msgs.map some) n = some (msgs.map some) := by
  induction n with
  | zero => simp [mergeFrom]
  | succ n ih =>
    have hlt : n < msgs.length := hn
    have hget : msgs[n]? = some msgs[n] := List.getElem?_eq_getElem hlt
    have hrole := hno n msgs[n] (Nat.lt_succ_self n) hget
    have ih2 := ih (Nat.le_of_lt hlt) (fun j m hj => hno j m (Nat.lt_succ_of_lt hj))
    simp [mergeFrom, hget, hrole, ih2]

theorem mergeFrom_last_user (k : Coze) (sysp : List (Option ChatMessage))
    (msgs : List ChatMessage) (i : Nat) (target : ChatMessage)
    (hget : msgs[i]? = some target) (hrole : target.Role = k.RoleUser)
    (d : Nat) (hn : i + 1 + d ≤ msgs.length)
    (hlast : ∀ j m, i < j → j < i + 1 + d → msgs[j]? = some m → m.Role ≠ k.RoleUser) :
    mergeFrom k sysp (msgs.map some) (i + 1 + d) =
      (mergeInto k sysp target).map (fun merged => (msgs.map some).set i (some merged)) := by
  induction d with
  | zero =>
    cases hm : mergeInto k sysp target <;> simp [mergeFrom, hget, hrole, hm]
  | succ d ih =>
    have hlt : i + 1 + d < msgs.length := hn
    have hg : msgs[i + 1 + d]? = some msgs[i + 1 + d] := List.getElem?_eq_getElem hlt
    have hr := hlast (i + 1 + d) msgs[i + 1 + d] (by omega) (by omega) hg
    have ih2 := ih (Nat.le_of_lt hlt) (fun j m h1 h2 => hlast j m h1 (by omega))
    have hstep : mergeFrom k sysp (msgs.map some) (i + 1 + (d + 1)) =
        mergeFrom k sysp (msgs.map some) (i + 1 + d) := by
      show mergeFrom k sysp (msgs.map some) ((i + 1 + d) + 1) = _
      simp [mergeFrom, hg, hr]
    rw [hstep, ih2]

/-- Either no message below index `n` has the user role, or one of them is the
last that has it. -/
theorem last_user_cases (k : Coze) (msgs : List ChatMessage) (n : Nat) (hn : n ≤ msgs.length) :
    (∀ j m, j < n → msgs[j]? = some m → m.Role ≠ k.RoleUser) ∨
    ∃ i target, i < n ∧ msgs[i]? = some target ∧ target.Role = k.RoleUser ∧
      ∀ j m, i < j → j < n → msgs[j]? = some m → m.Role ≠ k.RoleUser := by
  induction n with
  | zero => exact Or.inl (fun j m hj => absurd hj (Nat.not_lt_zero j))
  | succ n ih =>
    have hlt : n < msgs.length := hn
    have hg : msgs[n]? = some msgs[n] := List.getElem?_eq_getElem hlt
    by_cases hr : msgs[n].Role = k.RoleUser
    · exact Or.inr ⟨n, msgs[n], Nat.lt_succ_self n, hg, hr, fun j m h1 h2 => by omega⟩
    · rcases ih (Nat.le_of_lt hlt) with h | ⟨i, target, hi, hgi, hri, hl⟩
      · left
        intro j m hj hm
        rcases Nat.lt_succ_iff_lt_or_eq.mp hj with h1 | h1
        · exact h j m h1 hm
        · subst h1
          rw [hg] at hm
          cases hm
          exact hr
      · right
        refine ⟨i, target, Nat.lt_succ_of_lt hi, hgi, hri, ?_⟩
        intro j m h1 h2 hm
        rcases Nat.lt_succ_iff_lt_or_eq.mp h2 with h3 | h3
        · exact hl j m h1 h3 hm
        · subst h3
          rw [hg] at hm
          cases hm
          exact hr

/-- The merge on lists without nil entries, when the last user message is at
index `i`. -/
theorem merge_at_last_user (k : Coze) (sysp msgs : List ChatMessage) (i : Nat)
    (target : ChatMessage) (hne : sysp ≠ [])
    (hget : msgs[i]? = some target) (hrole : target.Role = k.RoleUser)
    (hlast : ∀ j m, i < j → msgs[j]? = some m → m.Role ≠ k.RoleUser) :
    mergeSystemPromptAndUserMessage k (sysp.map some) (msgs.map some) =
      (mergeInto k (sysp.map some) target).map
        (fun merged => (msgs.map some).set i (some merged)) := by
  have hpos : sysp.length > 0 := List.length_pos.mpr hne
  have hi : i < msgs.length := by
    by_contra h
    rw [List.getElem?_eq_none (Nat.le_of_not_lt h)] at hget
    cases hget
  obtain ⟨d, hd⟩ : ∃ d, msgs.length = i + 1 + d := ⟨msgs.length - (i + 1), by omega⟩
  have := mergeFrom_last_user k (sysp.map some) msgs i target hget hrole d (by omega)
    (fun j m h1 _ hm => hlast j m h1 hm)
  simp only [mergeSystemPromptAndUserMessage, List.length_map, hpos, if_true]
  rw [hd]
  exact this

theorem mergeFrom_no_user_opt (k : Coze) (sysp msgs : List (Option ChatMessage))
    (n : Nat) (hn : n ≤ msgs.length)
    (hno : ∀ j, j < n → ∃ x, msgs[j]? = some (some x) ∧ x.Role ≠ k.RoleUser) :
    mergeFrom k sysp msgs n = some msgs := by
  induction n with
  | zero => simp [mergeFrom]
  | succ n ih =>
    obtain ⟨x, hx, hr⟩ := hno n (Nat.lt_succ_self n)
    have ih2 := ih (Nat.le_of_lt hn) (fun j hj => hno j (Nat.lt_succ_of_lt hj))
    simp [mergeFrom, hx, hr, ih2]

/-! ## The system-prompt merge -/

/-- C1, counterexample: with the normalized system message `sysImage` (a Parts
holding one image) and the Text user message `userHi`, the merged target is a
Parts and not a Text. -/
theorem merge_text_claim_counterexample :
    normalized cozeV3 sysImage = true ∧ normalized cozeV3 userHi = true ∧
    mergeSystemPromptAndUserMessage cozeV3 [some sysImage] [some userHi] =
      some [some { Role := "user",
                   Content := Content.items [{ Typ := "text", Text := "Hi", FileUrl := "" },
                     { Typ := "image", Text := "", FileUrl := "http://x/a.png" }],
                   ContentType := "object_string" }] ∧
    ¬ ∃ t, mergeSystemPromptAndUserMessage cozeV3 [some sysImage] [some userHi] =
      some [some { userHi with Content := Content.str t }] := by
  refine ⟨by decide, by decide, by decide, ?_⟩
  rintro ⟨t, ht⟩
  have h : mergeSystemPromptAndUserMessage cozeV3 [some sysImage] [some userHi] =
      some [some { Role := "user",
                   Content := Content.items [{ Typ := "text", Text := "Hi", FileUrl := "" },
                     { Typ := "image", Text := "", FileUrl := "http://x/a.png" }],
                   ContentType := "object_string" }] := by decide
  rw [h] at ht
  simp [userHi] at ht

/-- C1 (amended): for a non-empty list `sysp` of normalized system messages
none of which holds an image part, and a list `msgs` whose last user-role
message `target` (at index `i`) is a Text with text `userText`, the merge
replaces that message by a Text whose text is every system text fragment
followed by a newline, then `userText`; when there is at least one fragment
this is `join(fragments, "\n") + "\n" + userText`. -/
theorem merge_pure_text (k : Coze) (sysp msgs : List ChatMessage) (i : Nat)
    (target : ChatMessage) (userText : String) (hne : sysp ≠ [])
    (hsys : ∀ s ∈ sysp, imagesOf k s = [] ∧ normalized k s = true)
    (hget : msgs[i]? = some target) (hrole : target.Role = k.RoleUser)
    (hlast : ∀ j m, i < j → msgs[j]? = some m → m.Role ≠ k.RoleUser)
    (hty : target.ContentType = k.ContentTypeText)
    (hc : target.Content = Content.str userText) :
    mergeSystemPromptAndUserMessage k (sysp.map some) (msgs.map some) =
      some ((msgs.set i { target with Content := Content.str (syspText k sysp ++ userText) }).map
        some) ∧
    (sysp.flatMap (textFrags k) ≠ [] →
      syspText k sysp ++ userText =
        joinWith "\n" (sysp.flatMap (textFrags k)) ++ "\n" ++ userText) := by
  constructor
  · rw [merge_at_last_user k sysp msgs i target hne hget hrole hlast,
      mergeInto_text k sysp target userText hsys hty hc]
    simp [List.map_set]
  · intro hfr
    rw [joinWith_append_sep "\n" _ hfr, syspText]

/-- C1, witness: system "Be concise." and user "Hi" give "Be concise.\nHi". -/
theorem merge_pure_text_witness :
    mergeSystemPromptAndUserMessage cozeV3 ([sysConcise].map some) ([userHi].map some) =
      some (([userHi].set 0
        { userHi with Content := Content.str (syspText cozeV3 [sysConcise] ++ "Hi") }).map some) ∧
    ([sysConcise].flatMap (textFrags cozeV3) ≠ [] →
      syspText cozeV3 [sysConcise] ++ "Hi" =
        joinWith "\n" ([sysConcise].flatMap (textFrags cozeV3)) ++ "\n" ++ "Hi") ∧
    joinWith "\n" ([sysConcise].flatMap (textFrags cozeV3)) ++ "\n" ++ "Hi" = "Be concise.\nHi" :=
  have h := merge_pure_text cozeV3 [sysConcise] [userHi] 0 userHi "Hi" (by decide) (by decide)
    (by decide) (by decide) (by intro j m hj hm; cases j <;> simp at hj hm) (by decide)
    (by decide)
  ⟨h.1, h.2, by decide⟩

/-- A normalized Parts message does not carry the text content type. -/
theorem mixed_of_cases (k : Coze) (hk : k.ContentTypeText ≠ k.ContentTypeObjectString)
    (sysp : List ChatMessage) (target : ChatMessage) (hn : normalized k target = true)
    (hmix : (∃ s ∈ sysp, imagesOf k s ≠ []) ∨ ∃ l, target.Content = Content.items l) :
    target.ContentType ≠ k.ContentTypeText ∨ ∃ s ∈ sysp, imagesOf k s ≠ [] := by
  rcases hmix with h | ⟨l, hl⟩
  · exact Or.inr h
  · left
    simp only [normalized, hl, Bool.decide_and, Bool.and_eq_true, decide_eq_true_eq] at hn
    rw [hn.1]
    exact Ne.symm hk

/-- C2: when `sysp` is non-empty and holds an image part, or the last user
message `target` (at index `i`) is a Parts, the merge replaces the target by a
Parts whose first element is a TextPart and whose remaining elements are the
image parts of the system messages in order followed by the image parts of the
target in order. The constants of package `coze` are assumed to tell the two
content types and the two part types apart and to spell the text content type
and the text part type alike. -/
theorem merge_mixed_parts (k : Coze) (hk : k.ContentTypeText ≠ k.ContentTypeObjectString)
    (hti : k.ContentItemTypeText ≠ k.ContentItemTypeImage)
    (htt : k.ContentTypeText = k.ContentItemTypeText)
    (sysp msgs : List ChatMessage) (i : Nat) (target : ChatMessage) (hne : sysp ≠ [])
    (hget : msgs[i]? = some target) (hrole : target.Role = k.RoleUser)
    (hlast : ∀ j m, i < j → msgs[j]? = some m → m.Role ≠ k.RoleUser)
    (hn : normalized k target = true)
    (hmix : (∃ s ∈ sysp, imagesOf k s ≠ []) ∨ ∃ l, target.Content = Content.items l) :
    ∃ lead, isTextPart k lead = true ∧
      mergeSystemPromptAndUserMessage k (sysp.map some) (msgs.map some) =
        some ((msgs.set i { target with
          ContentType := k.ContentTypeObjectString,
          Content := Content.items
            (lead :: (sysp.flatMap (imagesOf k) ++ imagesOf k target)) }).map some) := by
  refine ⟨{ Typ := k.ContentTypeText, Text := syspText k sysp ++ ownText k target, FileUrl := "" },
    by simp [isTextPart, htt], ?_⟩
  rw [merge_at_last_user k sysp msgs i target hne hget hrole hlast,
    mergeInto_mixed k hti sysp target (mixed_of_cases k hk sysp target hn hmix)]
  simp [List.map_set]

/-- C2, witness: one system image and a user Parts holding a text and an image. -/
theorem merge_mixed_parts_witness :
    ∃ lead, isTextPart cozeV3 lead = true ∧
      mergeSystemPromptAndUserMessage cozeV3 ([sysConcise, sysImage].map some)
          ([userParts, assistantOk].map some) =
        some (([userParts, assistantOk].set 0 { userParts with
          ContentType := cozeV3.ContentTypeObjectString,
          Content := Content.items
            (lead :: ([sysConcise, sysImage].flatMap (imagesOf cozeV3) ++
              imagesOf cozeV3 userParts)) }).map some) :=
  merge_mixed_parts cozeV3 (by decide) (by decide) (by decide) [sysConcise, sysImage]
    [userParts, assistantOk] 0 userParts (by decide) (by decide) (by decide)
    (by
      intro j m hj hm
      match j, hj, hm with
      | 1, _, hm =>
        simp at hm
        subst hm
        decide
      | j + 2, _, hm => simp at hm)
    (by decide) (Or.inl (by decide))

/-- C3, counterexample: with system "S" and a user Parts holding the text
"Hi", the leading TextPart reads "S\nHi\n", while the claimed text (target
fragments appended as they are) is "S\nHi"; and if the claim is read with a
newline after the target's fragments too, a system image with the Text user
message "Hi" gives the leading text "Hi" against the claimed "Hi\n". -/
theorem merge_lead_text_counterexample :
    mergeSystemPromptAndUserMessage cozeV3
        [some { Role := "system", Content := Content.str "S", ContentType := "text" }]
        [some { Role := "user",
                Content := Content.items [{ Typ := "text", Text := "Hi", FileUrl := "" }],
                ContentType := "object_string" }] =
      some [some { Role := "user",
                   Content := Content.items [{ Typ := "text", Text := "S\nHi\n", FileUrl := "" }],
                   ContentType := "object_string" }] ∧
    claimedLeadText cozeV3
        [{ Role := "system", Content := Content.str "S", ContentType := "text" }]
        { Role := "user",
          Content := Content.items [{ Typ := "text", Text := "Hi", FileUrl := "" }],
          ContentType := "object_string" } = "S\nHi" ∧
    "S\nHi\n" ≠ "S\nHi" ∧
    mergeSystemPromptAndUserMessage cozeV3 [some sysImage] [some userHi] =
      some [some { Role := "user",
                   Content := Content.items [{ Typ := "text", Text := "Hi", FileUrl := "" },
                     { Typ := "image", Text := "", FileUrl := "http://x/a.png" }],
                   ContentType := "object_string" }] ∧
    claimedLeadTextEach cozeV3 [sysImage] userHi = "Hi\n" ∧
    "Hi" ≠ "Hi\n" := by
  refine ⟨by decide, by decide, by decide, by decide, by decide, by decide⟩

/-- C3 (amended): in the mixed path (`sysp` non-empty with an image part, or
the target a Parts) the text of the leading part is every system text
fragment followed by a newline, then the target's own text: its whole text
when it is a Text, and each of its text fragments followed by a newline when
it is a Parts. -/
theorem merge_mixed_lead_text (k : Coze) (hk : k.ContentTypeText ≠ k.ContentTypeObjectString)
    (hti : k.ContentItemTypeText ≠ k.ContentItemTypeImage)
    (sysp msgs : List ChatMessage) (i : Nat) (target : ChatMessage) (hne : sysp ≠ [])
    (hget : msgs[i]? = some target) (hrole : target.Role = k.RoleUser)
    (hlast : ∀ j m, i < j → msgs[j]? = some m → m.Role ≠ k.RoleUser)
    (hn : normalized k target = true)
    (hmix : (∃ s ∈ sysp, imagesOf k s ≠ []) ∨ ∃ l, target.Content = Content.items l) :
    ∃ lead rest, lead.Text = syspText k sysp ++ ownText k target ∧
      mergeSystemPromptAndUserMessage k (sysp.map some) (msgs.map some) =
        some ((msgs.set i { target with
          ContentType := k.ContentTypeObjectString,
          Content := Content.items (lead :: rest) }).map some) := by
  refine ⟨{ Typ := k.ContentTypeText, Text := syspText k sysp ++ ownText k target, FileUrl := "" },
    sysp.flatMap (imagesOf k) ++ imagesOf k target, rfl, ?_⟩
  rw [merge_at_last_user k sysp msgs i target hne hget hrole hlast,
    mergeInto_mixed k hti sysp target (mixed_of_cases k hk sysp target hn hmix)]
  simp [List.map_set]

/-- C3, witness: a system image and the Text user message "Hi". -/
theorem merge_mixed_lead_text_witness :
    ∃ lead rest, lead.Text = syspText cozeV3 [sysConcise, sysImage] ++ ownText cozeV3 userHi ∧
      mergeSystemPromptAndUserMessage cozeV3 ([sysConcise, sysImage].map some)
          ([userHi].map some) =
        some (([userHi].set 0 { userHi with
          ContentType := cozeV3.ContentTypeObjectString,
          Content := Content.items (lead :: rest) }).map some) :=
  merge_mixed_lead_text cozeV3 (by decide) (by decide) [sysConcise, sysImage] [userHi] 0 userHi
    (by decide) (by decide) (by decide)
    (by intro j m hj hm; cases j <;> simp at hj hm) (by decide) (Or.inl (by decide))

/-- Frame of the merge on normalized messages: same length, same roles, and
only the last user-role message may differ. -/
theorem merge_frame_of_normalized (k : Coze) (hk : k.ContentTypeText ≠ k.ContentTypeObjectString)
    (sysp msgs : List ChatMessage) (hmsgs : ∀ m ∈ msgs, normalized k m = true) :
    ∃ out : List ChatMessage,
      mergeSystemPromptAndUserMessage k (sysp.map some) (msgs.map some) = some (out.map some) ∧
      out.length = msgs.length ∧
      out.map (fun m => m.Role) = msgs.map (fun m => m.Role) ∧
      ∀ (j : Nat) (m : ChatMessage), msgs[j]? = some m →
        (m.Role ≠ k.RoleUser ∨
          ∃ (j2 : Nat) (m2 : ChatMessage), j < j2 ∧ msgs[j2]? = some m2 ∧ m2.Role = k.RoleUser) →
        out[j]? = some m := by
  by_cases hne : sysp = []
  · subst hne
    exact ⟨msgs, by simp [mergeSystemPromptAndUserMessage], rfl, rfl, fun j m hm _ => hm⟩
  · rcases last_user_cases k msgs msgs.length (le_refl _) with hno | ⟨i, target, hi, hget, hrole, hl⟩
    · refine ⟨msgs, ?_, rfl, rfl, fun j m hm _ => hm⟩
      have hpos : sysp.length > 0 := List.length_pos.mpr hne
      simp only [mergeSystemPromptAndUserMessage, List.length_map, hpos, if_true]
      exact mergeFrom_no_user k (sysp.map some) msgs msgs.length (le_refl _) hno
    · have hlast : ∀ j m, i < j → msgs[j]? = some m → m.Role ≠ k.RoleUser := by
        intro j m hj hm
        by_cases hjl : j < msgs.length
        · exact hl j m hj hjl hm
        · rw [List.getElem?_eq_none (Nat.le_of_not_lt hjl)] at hm
          cases hm
      have hmem : target ∈ msgs := List.getElem?_mem hget
      obtain ⟨merged, hmerge, hmr⟩ := mergeInto_total k hk sysp target (hmsgs target hmem)
      refine ⟨msgs.set i merged, ?_, by simp, ?_, ?_⟩
      · rw [merge_at_last_user k sysp msgs i target hne hget hrole hlast, hmerge]
        simp [List.map_set]
      · apply List.ext_getElem?
        intro j
        by_cases hji : i = j
        · subst hji
          obtain ⟨_, hgi⟩ := List.getElem?_eq_some.mp hget
          simp [List.getElem?_map, List.getElem?_set, hi, hmr, hgi]
        · simp [List.getElem?_map, List.getElem?_set, hji]
      · intro j m hm hcase
        by_cases hji : i = j
        · subst hji
          rw [hget] at hm
          cases hm
          rcases hcase with h | ⟨j2, m2, h1, h2, h3⟩
          · exact absurd hrole h
          · exact absurd h3 (hlast j2 m2 h1 h2)
        · simp [List.getElem?_set, hji, hm]

/-- C4: on normalized messages the merge succeeds and yields a list of the
same length with the same roles, in which every message that is not the last
user-role message (its role is not user, or a later message has the user role)
is unchanged. The two content types are assumed distinct. -/
theorem merge_frame (k : Coze) (hk : k.ContentTypeText ≠ k.ContentTypeObjectString)
    (sysp msgs : List ChatMessage) (hmsgs : ∀ m ∈ msgs, normalized k m = true) :
    ∃ out : List ChatMessage,
      mergeSystemPromptAndUserMessage k (sysp.map some) (msgs.map some) = some (out.map some) ∧
      out.length = msgs.length ∧
      out.map (fun m => m.Role) = msgs.map (fun m => m.Role) ∧
      ∀ (j : Nat) (m : ChatMessage), msgs[j]? = some m →
        (m.Role ≠ k.RoleUser ∨
          ∃ (j2 : Nat) (m2 : ChatMessage), j < j2 ∧ msgs[j2]? = some m2 ∧ m2.Role = k.RoleUser) →
        out[j]? = some m :=
  merge_frame_of_normalized k hk sysp msgs hmsgs

/-- C4, witness: the assistant message after the target and the user message
before it are kept. -/
theorem merge_frame_witness :
    ∃ out : List ChatMessage,
      mergeSystemPromptAndUserMessage cozeV3 ([sysConcise].map some)
          ([userParts, userHi, assistantOk].map some) = some (out.map some) ∧
      out.length = [userParts, userHi, assistantOk].length ∧
      out.map (fun m => m.Role) = [userParts, userHi, assistantOk].map (fun m => m.Role) ∧
      ∀ (j : Nat) (m : ChatMessage), [userParts, userHi, assistantOk][j]? = some m →
        (m.Role ≠ cozeV3.RoleUser ∨
          ∃ (j2 : Nat) (m2 : ChatMessage), j < j2 ∧
            [userParts, userHi, assistantOk][j2]? = some m2 ∧ m2.Role = cozeV3.RoleUser) →
        out[j]? = some m :=
  merge_frame cozeV3 (by decide) [sysConcise] [userParts, userHi, assistantOk] (by decide)

/-- C5: the merge changes nothing when `sysp` is empty (whatever `msgs`
holds), and when every entry of `msgs` is a message whose role is not user
(whatever `sysp` holds, nil entries included). -/
theorem merge_noop (k : Coze) (sysp msgs : List (Option ChatMessage))
    (h : sysp = [] ∨ ∀ e ∈ msgs, ∃ m, e = some m ∧ m.Role ≠ k.RoleUser) :
    mergeSystemPromptAndUserMessage k sysp msgs = some msgs := by
  rcases h with h | h
  · subst h
    simp [mergeSystemPromptAndUserMessage]
  · unfold mergeSystemPromptAndUserMessage
    split
    · apply mergeFrom_no_user_opt k sysp msgs msgs.length (le_refl _)
      intro j hj
      obtain ⟨m, hm, hr⟩ := h msgs[j] (List.getElem_mem hj)
      exact ⟨m, by rw [List.getElem?_eq_getElem hj, hm], hr⟩
    · rfl

/-- C5, witness: a system image, a nil system entry and no user message. -/
theorem merge_noop_witness :
    mergeSystemPromptAndUserMessage cozeV3 [some sysImage, none] [some assistantOk] =
      some [some assistantOk] :=
  merge_noop cozeV3 [some sysImage, none] [some assistantOk]
    (Or.inr (by intro e he; simp at he; subst he; exact ⟨assistantOk, rfl, by decide⟩))

/-! ## The content normalizer -/

theorem transItems_eq (k : Coze) (items : List ContentItem) (objs : List JVal) :
    transItems k items objs = items ++ objs.filterMap (keptPart k) := by
  induction objs generalizing items with
  | nil => simp [transItems]
  | cons e rest ih =>
    cases e with
    | obj objm =>
      cases hty : JVal.asString (JVal.field objm "type") with
      | none => simp [transItems, hty, ih, keptPart, elemType]
      | some typ =>
        by_cases h1 : typ = "text"
        · subst h1
          simp [transItems, hty, ih, keptPart, elemType, elemText]
        · by_cases h2 : typ = "image_url"
          · subst h2
            cases hi : JVal.field objm "image_url" with
            | obj imgm =>
              cases hu : JVal.asString (JVal.field imgm "url") with
              | none => simp [transItems, hty, ih, keptPart, elemType, elemImageUrl, hi, hu]
              | some url => simp [transItems, hty, ih, keptPart, elemType, elemImageUrl, hi, hu]
            | null => simp [transItems, hty, ih, keptPart, elemType, elemImageUrl, hi]
            | bool b => simp [transItems, hty, ih, keptPart, elemType, elemImageUrl, hi]
            | num n => simp [transItems, hty, ih, keptPart, elemType, elemImageUrl, hi]
            | str x => simp [transItems, hty, ih, keptPart, elemType, elemImageUrl, hi]
            | arr l => simp [transItems, hty, ih, keptPart, elemType, elemImageUrl, hi]
          · simp [transItems, hty, ih, keptPart, elemType, h1, h2]
    | null => simp [transItems, ih, keptPart, elemType]
    | bool b => simp [transItems, ih, keptPart, elemType]
    | num n => simp [transItems, ih, keptPart, elemType]
    | str x => simp [transItems, ih, keptPart, elemType]
    | arr l => simp [transItems, ih, keptPart, elemType]

theorem keptPart_typ (k : Coze) (e : JVal) (item : ContentItem) (h : keptPart k e = some item) :
    item.Typ = k.ContentItemTypeText ∨ item.Typ = k.ContentItemTypeImage := by
  unfold keptPart at h
  split at h
  · cases h
    exact Or.inl rfl
  · split at h
    · cases hu : elemImageUrl e with
      | none => simp [hu] at h
      | some url =>
        simp [hu] at h
        subst h
        exact Or.inr rfl
    · cases h

/-- C7: for a list content the output parts are the order-preserving
filter-map of the input elements by `keptPart`, and `keptPart` keeps no element
whose `type` is missing, not a string, or neither "text" nor "image_url". -/
theorem trans_list_filterMap (k : Coze) (role : String) (objs : List JVal) :
    transOpenAiMessageContent k role (JVal.arr objs) =
      some { Role := role, Content := Content.items (objs.filterMap (keptPart k)),
             ContentType := k.ContentTypeObjectString } ∧
    (objs.filterMap (keptPart k)).length ≤ objs.length ∧
    ∀ e : JVal, elemType e = some "text" ∨ elemType e = some "image_url" ∨ keptPart k e = none := by
  refine ⟨by simp [transOpenAiMessageContent, transItems_eq], List.length_filterMap_le _ _, ?_⟩
  intro e
  by_cases h1 : elemType e = some "text"
  · exact Or.inl h1
  · by_cases h2 : elemType e = some "image_url"
    · exact Or.inr (Or.inl h2)
    · exact Or.inr (Or.inr (by simp [keptPart, h1, h2]))

/-- C7, evaluation: of the six elements of `sampleParts` three are kept, in
their input order. -/
theorem trans_list_filterMap_witness :
    transOpenAiMessageContent cozeV3 "user" (JVal.arr sampleParts) =
      some { Role := "user",
             Content := Content.items [{ Typ := "text", Text := "a", FileUrl := "" },
               { Typ := "image", Text := "", FileUrl := "u" },
               { Typ := "text", Text := "", FileUrl := "" }],
             ContentType := "object_string" } :=
  (trans_list_filterMap cozeV3 "user" sampleParts).1.trans (by decide)

theorem keptPart_count (k : Coze) (objs : List JVal) :
    (objs.filterMap (keptPart k)).length = objs.countP isTextElem + objs.countP isImageElem := by
  induction objs with
  | nil => simp
  | cons e rest ih =>
    by_cases h1 : elemType e = some "text"
    · have hk : keptPart k e = some ⟨k.ContentItemTypeText, elemText e, ""⟩ := by
        simp [keptPart, h1]
      have ht : isTextElem e = true := by simp [isTextElem, h1]
      have hi : isImageElem e = false := by simp [isImageElem, h1]
      rw [List.filterMap_cons_some hk, List.countP_cons_of_pos _ _ ht,
        List.countP_cons_of_neg _ _ (by simp [hi])]
      simp [ih]
      omega
    · have ht : isTextElem e = false := by simp [isTextElem, h1]
      by_cases h2 : elemType e = some "image_url"
      · cases hu : elemImageUrl e with
        | none =>
          have hk : keptPart k e = none := by simp [keptPart, h1, h2, hu]
          have hi : isImageElem e = false := by simp [isImageElem, h2, hu]
          rw [List.filterMap_cons_none hk, List.countP_cons_of_neg _ _ (by simp [ht]),
            List.countP_cons_of_neg _ _ (by simp [hi])]
          exact ih
        | some url =>
          have hk : keptPart k e = some ⟨k.ContentItemTypeImage, "", url⟩ := by
            simp [keptPart, h1, h2, hu]
          have hi : isImageElem e = true := by simp [isImageElem, h2, hu]
          rw [List.filterMap_cons_some hk, List.countP_cons_of_neg _ _ (by simp [ht]),
            List.countP_cons_of_pos _ _ hi]
          simp [ih]
          omega
      · have hk : keptPart k e = none := by simp [keptPart, h1, h2]
        have hi : isImageElem e = false := by simp [isImageElem, h2]
        rw [List.filterMap_cons_none hk, List.countP_cons_of_neg _ _ (by simp [ht]),
          List.countP_cons_of_neg _ _ (by simp [hi])]
        exact ih

theorem keptPart_text (k : Coze) (e : JVal) (h : elemType e = some "text") :
    keptPart k e = some ⟨k.ContentItemTypeText, elemText e, ""⟩ := by
  simp [keptPart, h]

theorem keptPart_image (k : Coze) (e : JVal) (h : elemType e = some "image_url") :
    keptPart k e = (elemImageUrl e).map (fun url => ⟨k.ContentItemTypeImage, "", url⟩) := by
  simp [keptPart, h]

/-- C8: for a list content `objs` the output parts `items` are such that an
element of type "text" gives, at its place between the parts of the elements
before it and the parts of the elements after it, a TextPart with the
element's `text` (the empty string when that field is missing or not a
string); an element of type "image_url" with a nested string `url` gives at
its place an ImagePart with that url, and one without it gives nothing; every
output part comes from such an element; the number of output parts is the
number of text elements plus the number of well-formed image elements. The
same is stated for one step of the loop. -/
theorem trans_list_kept (k : Coze) (role : String) (objs : List JVal) :
    (∃ items, transOpenAiMessageContent k role (JVal.arr objs) =
        some { Role := role, Content := Content.items items,
               ContentType := k.ContentTypeObjectString } ∧
      items.length = objs.countP isTextElem + objs.countP isImageElem ∧
      (∀ (pre : List JVal) (e : JVal) (post : List JVal), objs = pre ++ e :: post →
        elemType e = some "text" →
        items = transItems k [] pre ++
          { Typ := k.ContentItemTypeText, Text := elemText e, FileUrl := "" } ::
            transItems k [] post) ∧
      (∀ (pre : List JVal) (e : JVal) (post : List JVal) (url : String),
        objs = pre ++ e :: post → elemType e = some "image_url" → elemImageUrl e = some url →
        items = transItems k [] pre ++
          { Typ := k.ContentItemTypeImage, Text := "", FileUrl := url } ::
            transItems k [] post) ∧
      (∀ (pre : List JVal) (e : JVal) (post : List JVal), objs = pre ++ e :: post →
        elemType e = some "image_url" → elemImageUrl e = none →
        items = transItems k [] pre ++ transItems k [] post) ∧
      (∀ item ∈ items, ∃ e ∈ objs,
        (elemType e = some "text" ∧
          item = { Typ := k.ContentItemTypeText, Text := elemText e, FileUrl := "" }) ∨
        (elemType e = some "image_url" ∧ ∃ url, elemImageUrl e = some url ∧
          item = { Typ := k.ContentItemTypeImage, Text := "", FileUrl := url }))) ∧
    transOpenAiMessageContent k role (JVal.arr []) =
      some { Role := role, Content := Content.items [],
             ContentType := k.ContentTypeObjectString } ∧
    (∀ (acc : List ContentItem) (e : JVal) (rest : List JVal), elemType e = some "text" →
      transItems k acc (e :: rest) =
        transItems k (acc ++ [{ Typ := k.ContentItemTypeText, Text := elemText e, FileUrl := "" }])
          rest) ∧
    (∀ (acc : List ContentItem) (e : JVal) (rest : List JVal) (url : String),
      elemType e = some "image_url" → elemImageUrl e = some url →
      transItems k acc (e :: rest) =
        transItems k (acc ++ [{ Typ := k.ContentItemTypeImage, Text := "", FileUrl := url }])
          rest) ∧
    (∀ (acc : List ContentItem) (e : JVal) (rest : List JVal),
      elemType e = some "image_url" → elemImageUrl e = none →
      transItems k acc (e :: rest) = transItems k acc rest) := by
  refine ⟨⟨objs.filterMap (keptPart k), by simp [transOpenAiMessageContent, transItems_eq],
    keptPart_count k objs, ?_, ?_, ?_, ?_⟩, rfl, ?_, ?_, ?_⟩
  · intro pre e post hobjs h
    subst hobjs
    simp [transItems_eq, List.filterMap_append, keptPart_text k e h]
  · intro pre e post url hobjs h hu
    subst hobjs
    simp [transItems_eq, List.filterMap_append, keptPart_image k e h, hu]
  · intro pre e post hobjs h hu
    subst hobjs
    simp [transItems_eq, List.filterMap_append, keptPart_image k e h, hu]
  · intro item hitem
    obtain ⟨e, he, hk⟩ := List.mem_filterMap.mp hitem
    refine ⟨e, he, ?_⟩
    by_cases h1 : elemType e = some "text"
    · rw [keptPart_text k e h1] at hk
      exact Or.inl ⟨h1, (Option.some.inj hk).symm⟩
    · by_cases h2 : elemType e = some "image_url"
      · rw [keptPart_image k e h2] at hk
        cases hu : elemImageUrl e with
        | none => simp [hu] at hk
        | some url =>
          simp only [hu, Option.map_some', Option.some.injEq] at hk
          exact Or.inr ⟨h2, url, rfl, hk.symm⟩
      · simp [keptPart, h1, h2] at hk
  · intro acc e rest h
    simp [transItems_eq, keptPart, h]
  · intro acc e rest url h hu
    simp [transItems_eq, keptPart, h, hu]
  · intro acc e rest h hu
    simp [transItems_eq, keptPart, h, hu]

/-- C8, evaluation: `sampleParts` has two text elements and one well-formed
image element; the three parts that come out carry the text "a", the url "u"
and, for the text element whose `text` is a number, the empty text. -/
theorem trans_list_kept_witness :
    (∃ items, transOpenAiMessageContent cozeV3 "user" (JVal.arr sampleParts) =
        some { Role := "user", Content := Content.items items,
               ContentType := cozeV3.ContentTypeObjectString } ∧
      items.length = sampleParts.countP isTextElem + sampleParts.countP isImageElem ∧
      (∀ (pre : List JVal) (e : JVal) (post : List JVal), sampleParts = pre ++ e :: post →
        elemType e = some "text" →
        items = transItems cozeV3 [] pre ++
          { Typ := cozeV3.ContentItemTypeText, Text := elemText e, FileUrl := "" } ::
            transItems cozeV3 [] post) ∧
      (∀ (pre : List JVal) (e : JVal) (post : List JVal) (url : String),
        sampleParts = pre ++ e :: post → elemType e = some "image_url" →
        elemImageUrl e = some url →
        items = transItems cozeV3 [] pre ++
          { Typ := cozeV3.ContentItemTypeImage, Text := "", FileUrl := url } ::
            transItems cozeV3 [] post) ∧
      (∀ (pre : List JVal) (e : JVal) (post : List JVal), sampleParts = pre ++ e :: post →
        elemType e = some "image_url" → elemImageUrl e = none →
        items = transItems cozeV3 [] pre ++ transItems cozeV3 [] post) ∧
      (∀ item ∈ items, ∃ e ∈ sampleParts,
        (elemType e = some "text" ∧
          item = { Typ := cozeV3.ContentItemTypeText, Text := elemText e, FileUrl := "" }) ∨
        (elemType e = some "image_url" ∧ ∃ url, elemImageUrl e = some url ∧
          item = { Typ := cozeV3.ContentItemTypeImage, Text := "", FileUrl := url }))) ∧
    sampleParts.countP isTextElem = 2 ∧ sampleParts.countP isImageElem = 1 ∧
    transItems cozeV3 [] sampleParts =
      [{ Typ := "text", Text := "a", FileUrl := "" }, { Typ := "image", Text := "", FileUrl := "u" },
       { Typ := "text", Text := "", FileUrl := "" }] :=
  ⟨(trans_list_kept cozeV3 "user" sampleParts).1, by decide, by decide, by decide⟩

/-! ## The request builder -/

theorem splitMessages_eq (k : Coze) (st : List (Option ChatMessage) × List (Option ChatMessage))
    (l : List MessageWrap) :
    splitMessages k st (l.map some) =
      some (st.1 ++ (l.filter (fun m => m.Role = RoleSystem)).map
              (fun m => transOpenAiMessageContent k m.Role m.Content),
            st.2 ++ (l.filter (fun m => m.Role ≠ RoleSystem ∧
                (m.Role = k.RoleUser ∨ m.Role = k.RoleAssistant))).map
              (fun m => transOpenAiMessageContent k m.Role m.Content)) := by
  induction l generalizing st with
  | nil => simp [splitMessages]
  | cons m rest ih =>
    by_cases h1 : m.Role = RoleSystem
    · simp [splitMessages, h1, ih]
    · by_cases h2 : m.Role = k.RoleUser ∨ m.Role = k.RoleAssistant
      · simp [splitMessages, h1, h2, ih]
      · simp [splitMessages, h1, h2, ih]

theorem trans_normalized (k : Coze) (role : String) (c : JVal) (h : isStrOrList c = true) :
    ∃ x, transOpenAiMessageContent k role c = some x ∧ x.Role = role ∧ normalized k x = true := by
  cases c with
  | str s => exact ⟨_, rfl, rfl, by simp [normalized]⟩
  | arr objs =>
    refine ⟨_, rfl, rfl, ?_⟩
    simp only [normalized, transItems_eq, List.nil_append, decide_True, Bool.decide_and,
      Bool.true_and, List.all_eq_true, Bool.or_eq_true, isTextPart, isImagePart,
      decide_eq_true_eq, List.mem_filterMap]
    rintro item ⟨e, _, he⟩
    exact keptPart_typ k e item he
  | null => simp [isStrOrList] at h
  | bool b => simp [isStrOrList] at h
  | num n => simp [isStrOrList] at h
  | obj kvs => simp [isStrOrList] at h

theorem map_trans (k : Coze) (l : List MessageWrap)
    (h : ∀ m ∈ l, isStrOrList m.Content = true) :
    ∃ L : List ChatMessage,
      l.map (fun m => transOpenAiMessageContent k m.Role m.Content) = L.map some ∧
      (∀ x ∈ L, normalized k x = true) ∧
      ∀ (j : Nat) (m : MessageWrap), l[j]? = some m →
        ∃ x, L[j]? = some x ∧ transOpenAiMessageContent k m.Role m.Content = some x ∧
          x.Role = m.Role := by
  induction l with
  | nil => exact ⟨[], rfl, by simp, by simp⟩
  | cons m rest ih =>
    obtain ⟨L, hL, hn, hidx⟩ := ih (fun x hx => h x (List.mem_cons_of_mem _ hx))
    obtain ⟨x, hx, hr, hnx⟩ := trans_normalized k m.Role m.Content (h m (List.mem_cons_self _ _))
    refine ⟨x :: L, by simp [hx, hL], ?_, ?_⟩
    · intro y hy
      rcases List.mem_cons.mp hy with rfl | hy
      · exact hnx
      · exact hn y hy
    · intro j m2 hj
      cases j with
      | zero =>
        simp at hj
        subst hj
        exact ⟨x, by simp, hx, hr⟩
      | succ j =>
        simp at hj
        simpa using hidx j m2 hj

/-- C6: for a request whose messages all have string or list content,
`makeCozeChatReq` succeeds; its message list holds no system-role message, its
roles are the roles of the request's user and assistant messages in order,
and every message that is not the last user message is the normalization of
the request message it comes from. The constants of package `coze` are
assumed to keep the two content types apart and the user and assistant roles
apart from "system". -/
theorem makeCozeChatReq_messages (k : Coze)
    (hk : k.ContentTypeText ≠ k.ContentTypeObjectString)
    (hu : k.RoleUser ≠ RoleSystem) (ha : k.RoleAssistant ≠ RoleSystem)
    (model : String) (stream : Bool) (l : List MessageWrap)
    (h : ∀ m ∈ l, isStrOrList m.Content = true) :
    ∃ out : List ChatMessage,
      makeCozeChatReq k { Model := model, Messages := l.map some, Stream := stream } =
        some { Stream := true, AdditionalMessages := out.map some } ∧
      (∀ x ∈ out, x.Role ≠ RoleSystem) ∧
      out.map (fun x => x.Role) = (keptMessages k l).map (fun m => m.Role) ∧
      ∀ (j : Nat) (m : MessageWrap), (keptMessages k l)[j]? = some m →
        (m.Role ≠ k.RoleUser ∨ ∃ (j2 : Nat) (m2 : MessageWrap), j < j2 ∧
          (keptMessages k l)[j2]? = some m2 ∧ m2.Role = k.RoleUser) →
        out[j]? = transOpenAiMessageContent k m.Role m.Content := by
  have hfilter : l.filter (fun m => m.Role ≠ RoleSystem ∧
      (m.Role = k.RoleUser ∨ m.Role = k.RoleAssistant)) = keptMessages k l := by
    unfold keptMessages
    apply List.filter_congr
    intro m _
    by_cases h1 : m.Role = k.RoleUser
    · simp [h1, hu]
    · by_cases h2 : m.Role = k.RoleAssistant
      · simp [h2, ha]
      · simp [h1, h2]
  obtain ⟨S, hS, _, _⟩ := map_trans k (l.filter (fun m => m.Role = RoleSystem))
    (fun m hm => h m (List.mem_of_mem_filter hm))
  obtain ⟨K, hK, hKn, hKidx⟩ := map_trans k (keptMessages k l)
    (fun m hm => h m (List.mem_of_mem_filter hm))
  obtain ⟨out, hmerge, _, hroles, hframe⟩ := merge_frame_of_normalized k hk S K hKn
  have hKroles : K.map (fun x => x.Role) = (keptMessages k l).map (fun m => m.Role) := by
    apply List.ext_getElem?
    intro j
    cases hj : (keptMessages k l)[j]? with
    | none =>
      have hlen : K.length = (keptMessages k l).length := by
        have := congrArg List.length hK
        simpa using this.symm
      have h1 : (keptMessages k l).length ≤ j := List.getElem?_eq_none_iff.mp hj
      simp [List.getElem?_map, hj, List.getElem?_eq_none (hlen ▸ h1)]
    | some m =>
      obtain ⟨x, hx, _, hr⟩ := hKidx j m hj
      simp [List.getElem?_map, hj, hx, hr]
  refine ⟨out, ?_, ?_, hroles.trans hKroles, ?_⟩
  · simp only [makeCozeChatReq, splitMessages_eq, List.nil_append, hfilter, hS, hK, hmerge]
  · intro x hx hsys
    have hmem : x.Role ∈ out.map (fun x => x.Role) := List.mem_map_of_mem _ hx
    rw [hroles.trans hKroles] at hmem
    obtain ⟨m, hm, hmr⟩ := List.mem_map.mp hmem
    have hm2 := (List.mem_filter.mp hm).2
    simp only [Bool.decide_or, Bool.or_eq_true, decide_eq_true_eq] at hm2
    rcases hm2 with h1 | h1
    · exact hu (h1.symm.trans (hmr.trans hsys))
    · exact ha (h1.symm.trans (hmr.trans hsys))
  · intro j m hj hcase
    obtain ⟨x, hx, hT, hr⟩ := hKidx j m hj
    rw [hT]
    apply hframe j x hx
    rcases hcase with h1 | ⟨j2, m2, hlt, hj2, hr2⟩
    · exact Or.inl (by rw [hr]; exact h1)
    · obtain ⟨x2, hx2, _, hrx2⟩ := hKidx j2 m2 hj2
      exact Or.inr ⟨j2, x2, hlt, hx2, hrx2.trans hr2⟩

/-- C6, witness: `sampleRequest` gives the roles user, assistant, user; the
system text is merged into the second user message. -/
theorem makeCozeChatReq_messages_witness :
    (∃ out : List ChatMessage,
      makeCozeChatReq cozeV3
          { Model := "m", Messages := sampleRequest.map some, Stream := false } =
        some { Stream := true, AdditionalMessages := out.map some } ∧
      (∀ x ∈ out, x.Role ≠ RoleSystem) ∧
      out.map (fun x => x.Role) = (keptMessages cozeV3 sampleRequest).map (fun m => m.Role) ∧
      ∀ (j : Nat) (m : MessageWrap), (keptMessages cozeV3 sampleRequest)[j]? = some m →
        (m.Role ≠ cozeV3.RoleUser ∨ ∃ (j2 : Nat) (m2 : MessageWrap), j < j2 ∧
          (keptMessages cozeV3 sampleRequest)[j2]? = some m2 ∧ m2.Role = cozeV3.RoleUser) →
        out[j]? = transOpenAiMessageContent cozeV3 m.Role m.Content) ∧
    makeCozeChatReq cozeV3 { Model := "m", Messages := sampleRequest.map some, Stream := false } =
      some { Stream := true, AdditionalMessages :=
        [some { Role := "user", Content := Content.str "One", ContentType := "text" },
         some { Role := "assistant", Content := Content.str "Ok", ContentType := "text" },
         some { Role := "user",
                Content := Content.items [{ Typ := "text", Text := "Be concise.\na\n\n", FileUrl := "" },
                  { Typ := "image", Text := "", FileUrl := "u" }],
                ContentType := "object_string" }] } :=
  ⟨makeCozeChatReq_messages cozeV3 (by decide) (by decide) (by decide) "m" false sampleRequest
    (by decide), by decide⟩

/-- C9, evaluation: a user message with numeric content is normalized to no
message, yet `makeCozeChatReq` keeps a nil entry for it in the backend list;
with a system message before it the merge dereferences that entry and the run
fails; a system message with numeric content leaves a nil entry in the system
list, which fails the run as soon as a user message exists. -/
theorem makeCozeChatReq_keeps_nil :
    transOpenAiMessageContent cozeV3 "user" (JVal.num 5) = none ∧
    splitMessages cozeV3 ([], []) [some { Role := "user", Content := JVal.num 5 }] =
      some ([], [none]) ∧
    makeCozeChatReq cozeV3
        { Model := "m", Messages := [some { Role := "user", Content := JVal.num 5 }],
          Stream := false } =
      some { Stream := true, AdditionalMessages := [none] } ∧
    makeCozeChatReq cozeV3
        { Model := "m",
          Messages := [some { Role := "system", Content := JVal.str "S" },
                       some { Role := "user", Content := JVal.num 5 }],
          Stream := false } = none ∧
    splitMessages cozeV3 ([], [])
        [some { Role := "system", Content := JVal.null },
         some { Role := "user", Content := JVal.str "Hi" }] =
      some ([none], [some userHi]) ∧
    makeCozeChatReq cozeV3
        { Model := "m",
          Messages := [some { Role := "system", Content := JVal.null },
                       some { Role := "user", Content := JVal.str "Hi" }],
          Stream := false } = none := by
  refine ⟨by decide, by decide, by decide, by decide, by decide, by decide⟩

/-! ## The stream relay -/

theorem leadingChunks_length (k : Coze) (now : Nat → Int) (model : String) (t : Nat)
    (pre : List ChatEvent) : (leadingChunks k now model t pre).length = pre.length := by
  induction pre generalizing t with
  | nil => rfl
  | cons e rest ih => simp [leadingChunks, ih]

theorem leadingChunks_getElem? (k : Coze) (now : Nat → Int) (model : String) (t : Nat)
    (pre : List ChatEvent) (i : Nat) (e : ChatEvent) (h : pre[i]? = some e) :
    (leadingChunks k now model t pre)[i]? =
      some (if e.Event = ChatEventType.ChatInProgress
        then inProgressChunk k (now (t + i)) e.Data model
        else makeOpenAiChatChunk (now (t + i)) e.Data model) := by
  induction pre generalizing t i with
  | nil => simp at h
  | cons e0 rest ih =>
    cases i with
    | zero =>
      simp at h
      subst h
      simp [leadingChunks]
    | succ i =>
      simp at h
      have := ih (t + 1) i h
      simp only [leadingChunks, List.getElem?_cons_succ, this]
      rw [show t + 1 + i = t + (i + 1) by omega]

theorem leadingChunks_no_stop (k : Coze) (now : Nat → Int) (model : String) (t : Nat)
    (pre : List ChatEvent) : (leadingChunks k now model t pre).countP hasStop = 0 := by
  induction pre generalizing t with
  | nil => rfl
  | cons e rest ih =>
    have h1 : ∀ c d, hasStop (inProgressChunk k c d model) = false := by
      intro c d
      simp [hasStop, inProgressChunk, makeOpenAiChatChunk, updChoice0, FinishReasonStop]
    have h2 : ∀ c d, hasStop (makeOpenAiChatChunk c d model) = false := by
      intro c d
      simp [hasStop, makeOpenAiChatChunk, FinishReasonStop]
    by_cases he : e.Event = ChatEventType.ChatInProgress
    · simp [leadingChunks, he, h1, ih]
    · simp [leadingChunks, he, h2, ih]

theorem completedChunk_stop (now : Int) (d : ChatEventData) (model : String) :
    hasStop (completedChunk now d model) = true := by
  simp [hasStop, completedChunk, makeOpenAiChatChunk, updChoice0]

theorem streamLoop_completed (k : Coze) (now : Nat → Int) (model : String) (t : Nat)
    (pre : List ChatEvent) (c : ChatEvent) (post : List ChatEvent)
    (hpre : ∀ e ∈ pre, e.Event = ChatEventType.ChatInProgress ∨
      e.Event = ChatEventType.MessageDelta)
    (hc : c.Event = ChatEventType.ChatCompleted) :
    streamLoop k now model t (pre ++ c :: post) =
      (leadingChunks k now model t pre ++
        [completedChunk (now (t + pre.length)) c.Data model]).map SSEData.rsp ++
      [SSEData.str sseDone] := by
  induction pre generalizing t with
  | nil => simp [streamLoop, hc, leadingChunks]
  | cons e rest ih =>
    have hrest := ih (t + 1) (fun x hx => hpre x (List.mem_cons_of_mem _ hx))
    have harith : t + 1 + rest.length = t + (rest.length + 1) := by omega
    rcases hpre e (List.mem_cons_self _ _) with he | he
    · simp [streamLoop, he, leadingChunks, hrest, harith]
    · simp [streamLoop, he, leadingChunks, hrest, harith]

/-- C10: for `n` InProgress/Delta events followed by a Completed event and
any further events, the relay sends `n + 1` chunks, one per event in order,
then the `[DONE]` sentinel and nothing more; exactly one chunk carries
`finish_reason = "stop"` and it is the last one. -/
theorem stream_until_completed (k : Coze) (now : Nat → Int) (model : String)
    (pre : List ChatEvent) (c : ChatEvent) (post : List ChatEvent)
    (hpre : ∀ e ∈ pre, e.Event = ChatEventType.ChatInProgress ∨
      e.Event = ChatEventType.MessageDelta)
    (hc : c.Event = ChatEventType.ChatCompleted) :
    ∃ chunks : List CompletionsRsp,
      handleCompletionsStream k now model (pre ++ c :: post) =
        chunks.map SSEData.rsp ++ [SSEData.str sseDone] ∧
      chunks.length = pre.length + 1 ∧
      (∀ (i : Nat) (e : ChatEvent), pre[i]? = some e →
        chunks[i]? = some (if e.Event = ChatEventType.ChatInProgress
          then inProgressChunk k (now i) e.Data model
          else makeOpenAiChatChunk (now i) e.Data model)) ∧
      chunks[pre.length]? = some (completedChunk (now pre.length) c.Data model) ∧
      chunks.countP hasStop = 1 ∧
      chunks.getLast?.map hasStop = some true := by
  refine ⟨leadingChunks k now model 0 pre ++ [completedChunk (now pre.length) c.Data model],
    ?_, ?_, ?_, ?_, ?_, ?_⟩
  · have := streamLoop_completed k now model 0 pre c post hpre hc
    simpa [handleCompletionsStream] using this
  · simp [leadingChunks_length]
  · intro i e he
    have hi : i < (leadingChunks k now model 0 pre).length := by
      rw [leadingChunks_length]
      by_contra hcon
      rw [List.getElem?_eq_none (Nat.le_of_not_lt hcon)] at he
      cases he
    rw [List.getElem?_append_left hi]
    simpa using leadingChunks_getElem? k now model 0 pre i e he
  · have hlen := leadingChunks_length k now model 0 pre
    rw [List.getElem?_append_right (by omega), hlen]
    simp
  · simp [List.countP_append, leadingChunks_no_stop, completedChunk_stop]
  · simp [completedChunk_stop]

/-- C10, witness: `[InProgress, Delta("Hi"), Delta(" there"), Completed]`
(and a stray event after it) gives four chunks and then `[DONE]`. -/
theorem stream_until_completed_witness :
    (∃ chunks : List CompletionsRsp,
      handleCompletionsStream cozeV3 (fun t => 1700000000 + t) "gpt"
          (sampleEvents.take 3 ++ sampleEvents.get ⟨3, by decide⟩ :: sampleEvents.drop 4) =
        chunks.map SSEData.rsp ++ [SSEData.str sseDone] ∧
      chunks.length = (sampleEvents.take 3).length + 1 ∧
      (∀ (i : Nat) (e : ChatEvent), (sampleEvents.take 3)[i]? = some e →
        chunks[i]? = some (if e.Event = ChatEventType.ChatInProgress
          then inProgressChunk cozeV3 ((fun t : Nat => (1700000000 : Int) + t) i) e.Data "gpt"
          else makeOpenAiChatChunk ((fun t : Nat => (1700000000 : Int) + t) i) e.Data "gpt")) ∧
      chunks[(sampleEvents.take 3).length]? =
        some (completedChunk ((fun t : Nat => (1700000000 : Int) + t) (sampleEvents.take 3).length)
          (sampleEvents.get ⟨3, by decide⟩).Data "gpt") ∧
      chunks.countP hasStop = 1 ∧
      chunks.getLast?.map hasStop = some true) ∧
    (handleCompletionsStream cozeV3 (fun t => 1700000000 + t) "gpt" sampleEvents).length = 5 ∧
    (handleCompletionsStream cozeV3 (fun t => 1700000000 + t) "gpt" sampleEvents).getLast? =
      some (SSEData.str "[DONE]") :=
  ⟨stream_until_completed cozeV3 (fun t => 1700000000 + t) "gpt" (sampleEvents.take 3)
    (sampleEvents.get ⟨3, by decide⟩) (sampleEvents.drop 4) (by decide) (by decide),
    by decide, rfl⟩

/-- C11: the frame sent for one event. An InProgress event gives a chunk with
object "chat.completion.chunk", the model name and one choice whose delta has
the assistant role and the content "", with no finish reason; a Delta event
gives one choice whose delta has no role and the event's content, with no
finish reason; a Completed event gives one choice with an empty delta and the
finish reason "stop", followed by the sentinel. An absent JSON field is the
empty string (role, finish reason) or the nil content. -/
theorem stream_chunk_shape (k : Coze) (now : Nat → Int) (model : String) (t : Nat)
    (ev : ChatEvent) (rest : List ChatEvent) :
    (ev.Event = ChatEventType.ChatInProgress →
      ∃ c, streamLoop k now model t (ev :: rest) =
          SSEData.rsp c :: streamLoop k now model (t + 1) rest ∧
        c.Object = "chat.completion.chunk" ∧ c.Model = model ∧
        c.Choices = [⟨0, some ⟨k.RoleAssistant, JVal.str ""⟩, none, ""⟩]) ∧
    (ev.Event = ChatEventType.MessageDelta →
      ∃ c, streamLoop k now model t (ev :: rest) =
          SSEData.rsp c :: streamLoop k now model (t + 1) rest ∧
        c.Object = "chat.completion.chunk" ∧ c.Model = model ∧
        c.Choices = [⟨0, some ⟨"", JVal.str ev.Data.Content⟩, none, ""⟩]) ∧
    (ev.Event = ChatEventType.ChatCompleted →
      ∃ c, streamLoop k now model t (ev :: rest) = [SSEData.rsp c, SSEData.str sseDone] ∧
        c.Object = "chat.completion.chunk" ∧ c.Model = model ∧
        c.Choices = [⟨0, some ⟨"", JVal.null⟩, none, "stop"⟩]) := by
  refine ⟨fun h => ⟨inProgressChunk k (now t) ev.Data model, ?_, rfl, rfl, rfl⟩,
    fun h => ⟨makeOpenAiChatChunk (now t) ev.Data model, ?_, rfl, rfl, rfl⟩,
    fun h => ⟨completedChunk (now t) ev.Data model, ?_, rfl, rfl, rfl⟩⟩
  · simp [streamLoop, h]
  · simp [streamLoop, h]
  · simp [streamLoop, h]

/-- C11, witness: the Delta event "Hi" of `sampleEvents`. -/
theorem stream_chunk_shape_witness :
    ∃ c, streamLoop cozeV3 (fun _ => 0) "gpt" 1
          ({ Event := ChatEventType.MessageDelta,
             Data := { Id := "m1", ChatId := "c1", Content := "Hi" } } :: []) =
          SSEData.rsp c :: streamLoop cozeV3 (fun _ => 0) "gpt" (1 + 1) [] ∧
        c.Object = "chat.completion.chunk" ∧ c.Model = "gpt" ∧
        c.Choices = [⟨0, some ⟨"", JVal.str "Hi"⟩, none, ""⟩] :=
  (stream_chunk_shape cozeV3 (fun _ => 0) "gpt" 1
    { Event := ChatEventType.MessageDelta, Data := { Id := "m1", ChatId := "c1", Content := "Hi" } }
    []).2.1 rfl

/-- C12, evaluation: for the events of the chat `c1` in `sampleEvents`, whose
InProgress and Completed events carry the chat identifier in `Id` and whose
Delta events carry it in `ChatId`, the first three chunks have the id
"chatcmpl-c1" and the Completed chunk has the id "chatcmpl-". -/
theorem stream_chunk_ids_differ :
    chunkIds (handleCompletionsStream cozeV3 (fun _ => 0) "gpt" sampleEvents) =
      ["chatcmpl-c1", "chatcmpl-c1", "chatcmpl-c1", "chatcmpl-"] ∧
    (inProgressChunk cozeV3 0 { Id := "c1", ChatId := "", Content := "" } "gpt").Id =
      "chatcmpl-c1" ∧
    (completedChunk 0 { Id := "c1", ChatId := "", Content := "" } "gpt").Id = "chatcmpl-" := by
  refine ⟨by decide, by decide, by decide⟩

theorem untimed_streamLoop (k : Coze) (now now2 : Nat → Int) (model : String)
    (events : List ChatEvent) (t t2 : Nat) :
    (streamLoop k now model t events).map untimed =
      (streamLoop k now2 model t2 (events.filter isKnownEvent)).map untimed := by
  induction events generalizing t t2 with
  | nil => rfl
  | cons ev rest ih =>
    cases hev : ev.Event with
    | ChatInProgress =>
      simp only [streamLoop, hev, isKnownEvent, List.filter_cons, if_true, List.map_cons]
      rw [ih (t + 1) (t2 + 1)]
      rfl
    | MessageDelta =>
      simp only [streamLoop, hev, isKnownEvent, List.filter_cons, if_true, List.map_cons]
      rw [ih (t + 1) (t2 + 1)]
      rfl
    | ChatCompleted =>
      simp only [streamLoop, hev, isKnownEvent, List.filter_cons, if_true, List.map_cons]
      rfl
    | other name =>
      simp only [streamLoop, hev, isKnownEvent, List.filter_cons]
      exact ih (t + 1) t2

theorem constant_clock_streamLoop (k : Coze) (c : Int) (model : String)
    (events : List ChatEvent) (t t2 : Nat) :
    streamLoop k (fun _ => c) model t events =
      streamLoop k (fun _ => c) model t2 (events.filter isKnownEvent) := by
  induction events generalizing t t2 with
  | nil => rfl
  | cons ev rest ih =>
    cases hev : ev.Event with
    | ChatInProgress =>
      simp only [streamLoop, hev, isKnownEvent, List.filter_cons, if_true]
      rw [ih (t + 1) (t2 + 1)]
    | MessageDelta =>
      simp only [streamLoop, hev, isKnownEvent, List.filter_cons, if_true]
      rw [ih (t + 1) (t2 + 1)]
    | ChatCompleted =>
      simp only [streamLoop, hev, isKnownEvent, List.filter_cons, if_true]
    | other name =>
      simp only [streamLoop, hev, isKnownEvent, List.filter_cons]
      exact ih (t + 1) t2

/-- C13: an event that is none of InProgress, Delta, Completed sends no frame
and does not end the loop; deleting all such events leaves the frames
unchanged up to the clock reading stored in each chunk, and unchanged
altogether when the clock does not advance. -/
theorem stream_ignores_unknown (k : Coze) (now now2 : Nat → Int) (c : Int) (model : String)
    (events : List ChatEvent) :
    (∀ (t : Nat) (name : String) (d : ChatEventData) (rest : List ChatEvent),
      streamLoop k now model t (⟨ChatEventType.other name, d⟩ :: rest) =
        streamLoop k now model (t + 1) rest) ∧
    (handleCompletionsStream k now model events).map untimed =
      (handleCompletionsStream k now2 model (events.filter isKnownEvent)).map untimed ∧
    handleCompletionsStream k (fun _ => c) model events =
      handleCompletionsStream k (fun _ => c) model (events.filter isKnownEvent) :=
  ⟨fun _ _ _ _ => rfl, untimed_streamLoop k now now2 model events 0 0,
    constant_clock_streamLoop k c model events 0 0⟩

/-- C13, evaluation: `sampleEventsNoise` and the same events without the
unknown one send the same three chunks. -/
theorem stream_ignores_unknown_witness :
    handleCompletionsStream cozeV3 (fun _ => 5) "gpt" sampleEventsNoise =
      handleCompletionsStream cozeV3 (fun _ => 5) "gpt" (sampleEvents.take 3) ∧
    (handleCompletionsStream cozeV3 (fun _ => 5) "gpt" sampleEventsNoise).length = 3 :=
  ⟨(stream_ignores_unknown cozeV3 (fun _ => 5) (fun _ => 5) 5 "gpt" sampleEventsNoise).2.2.trans
    rfl, by decide⟩

/-! ## The response assembler -/

theorem parse_of_no_error (k : Coze) (created : Int) (result : ChatResult) (model : String)
    (u : ChatUsage) (h : result.LastError = none) (hu : result.Usage = some u) :
    parseCompletionsReturn k created result model =
      some ⟨200, JSONBody.rsp ⟨chatId result.ChatId, ObjectChatCompletion, created, model,
        [⟨0, none, some ⟨k.RoleAssistant, JVal.str result.Answer⟩, FinishReasonStop⟩],
        some ⟨u.InputCount, u.OutputCount, u.TokenCount⟩⟩⟩ := by
  simp [parseCompletionsReturn, h, hu]

theorem parse_of_nil_usage (k : Coze) (created : Int) (result : ChatResult) (model : String)
    (h : result.LastError = none) (hu : result.Usage = none) :
    parseCompletionsReturn k created result model = none := by
  simp [parseCompletionsReturn, h, hu]

theorem parse_of_error (k : Coze) (created : Int) (result : ChatResult) (model : String)
    (e : CozeErrorWrap) (h : result.LastError = some e) :
    parseCompletionsReturn k created result model =
      some ⟨500, JSONBody.error ⟨⟨Itoa e.Code, e.Msg⟩⟩⟩ := by
  simp [parseCompletionsReturn, h]

/-- C14, evaluation: on the error-free result `sampleResultNoUsage`, whose
`Usage` is nil, the function fails at line 180 and writes nothing; on
`sampleResult`, the same result with the usage {2, 3, 5}, it writes status 200
and the response the claim describes, with total 5. -/
theorem parse_nil_usage_fails :
    sampleResultNoUsage.LastError = none ∧
    parseCompletionsReturn cozeV3 1700000000 sampleResultNoUsage "gpt" = none ∧
    parseCompletionsReturn cozeV3 1700000000 sampleResult "gpt" =
      some ⟨200, JSONBody.rsp ⟨"chatcmpl-c1", "chat.completion", 1700000000, "gpt",
        [⟨0, none, some ⟨"assistant", JVal.str "Hi there"⟩, "stop"⟩], some ⟨2, 3, 5⟩⟩⟩ :=
  ⟨rfl, rfl, rfl⟩

/-- C15: the function writes an error envelope, and then with status 500,
exactly when the result carries an error; the envelope holds the decimal text
of the backend's code and the backend's message, and no completion object is
written. Without an error it writes no envelope: it writes status 200 with a
completion object when the result has a usage, and fails before writing
anything when the usage is nil. -/
theorem parse_error_iff (k : Coze) (created : Int) (result : ChatResult) (model : String) :
    ((∃ err, parseCompletionsReturn k created result model = some ⟨500, JSONBody.error err⟩) ↔
      result.LastError.isSome = true) ∧
    ((∃ status err,
        parseCompletionsReturn k created result model = some ⟨status, JSONBody.error err⟩) ↔
      result.LastError.isSome = true) ∧
    (∀ e, result.LastError = some e →
      parseCompletionsReturn k created result model =
        some ⟨500, JSONBody.error ⟨⟨Itoa e.Code, e.Msg⟩⟩⟩) ∧
    (result.LastError = none →
      (result.Usage = none → parseCompletionsReturn k created result model = none) ∧
      ∀ u, result.Usage = some u →
        parseCompletionsReturn k created result model =
          some ⟨200, JSONBody.rsp ⟨chatId result.ChatId, ObjectChatCompletion, created, model,
            [⟨0, none, some ⟨k.RoleAssistant, JVal.str result.Answer⟩, FinishReasonStop⟩],
            some ⟨u.InputCount, u.OutputCount, u.TokenCount⟩⟩⟩) := by
  cases h : result.LastError with
  | some e =>
    have he := parse_of_error k created result model e h
    refine ⟨⟨fun _ => rfl, fun _ => ⟨_, he⟩⟩, ⟨fun _ => rfl, fun _ => ⟨_, _, he⟩⟩, ?_, ?_⟩
    · intro e2 h2
      cases h2
      exact he
    · intro hn
      cases hn
  | none =>
    have hnone : ∀ status err,
        parseCompletionsReturn k created result model ≠ some ⟨status, JSONBody.error err⟩ := by
      intro status err hp
      cases hu : result.Usage with
      | none =>
        rw [parse_of_nil_usage k created result model h hu] at hp
        cases hp
      | some u =>
        rw [parse_of_no_error k created result model u h hu] at hp
        simp at hp
    refine ⟨⟨?_, ?_⟩, ⟨?_, ?_⟩, ?_, ?_⟩
    · rintro ⟨err, hp⟩
      exact absurd hp (hnone 500 err)
    · intro hs
      simp at hs
    · rintro ⟨status, err, hp⟩
      exact absurd hp (hnone status err)
    · intro hs
      simp at hs
    · intro e he
      cases he
    · intro _
      exact ⟨fun hu => parse_of_nil_usage k created result model h hu,
        fun u hu => parse_of_no_error k created result model u h hu⟩

/-- C15, witness: the backend error 702 is surfaced with status 500 and the
code "702", whether or not the result has a usage. -/
theorem parse_error_iff_witness :
    parseCompletionsReturn cozeV3 0 sampleFailure "gpt" =
      some ⟨500, JSONBody.error ⟨⟨Itoa 702, "quota exceeded"⟩⟩⟩ ∧ Itoa 702 = "702" ∧
    ((∃ err, parseCompletionsReturn cozeV3 0 sampleResultNoUsage "gpt" =
        some ⟨500, JSONBody.error err⟩) ↔ sampleResultNoUsage.LastError.isSome = true) :=
  ⟨(parse_error_iff cozeV3 0 sampleFailure "gpt").2.2.1 ⟨702, "quota exceeded"⟩ rfl, by decide,
    (parse_error_iff cozeV3 0 sampleResultNoUsage "gpt").1⟩

/-! ## The relay on a stream that ends without completion -/

theorem stream_done_any (k : Coze) (now : Nat → Int) (model : String) (t : Nat)
    (events : List ChatEvent) :
    (streamLoop k now model t events).any isDoneFrame =
      events.any (fun e => decide (e.Event = ChatEventType.ChatCompleted)) := by
  induction events generalizing t with
  | nil => rfl
  | cons ev rest ih =>
    cases hev : ev.Event with
    | ChatInProgress => simp [streamLoop, hev, isDoneFrame, ih]
    | MessageDelta => simp [streamLoop, hev, isDoneFrame, ih]
    | ChatCompleted => simp [streamLoop, hev, isDoneFrame]
    | other name => simp [streamLoop, hev, ih]

theorem streamLoop_no_completed (k : Coze) (now : Nat → Int) (model : String) (t : Nat)
    (events : List ChatEvent) (h : ∀ e ∈ events, e.Event ≠ ChatEventType.ChatCompleted) :
    ∃ chunks : List CompletionsRsp,
      streamLoop k now model t events = chunks.map SSEData.rsp ∧
      chunks.length = events.countP isProgressEvent ∧
      ∀ c ∈ chunks, ∀ ch ∈ c.Choices, ch.FinishReason = "" := by
  induction events generalizing t with
  | nil => exact ⟨[], rfl, rfl, by simp⟩
  | cons ev rest ih =>
    obtain ⟨chunks, h1, h2, h3⟩ := ih (t + 1) (fun e he => h e (List.mem_cons_of_mem _ he))
    have hne := h ev (List.mem_cons_self _ _)
    cases hev : ev.Event with
    | ChatInProgress =>
      refine ⟨inProgressChunk k (now t) ev.Data model :: chunks, by simp [streamLoop, hev, h1],
        by simp [isProgressEvent, hev, h2], ?_⟩
      intro c hc
      rcases List.mem_cons.mp hc with rfl | hc
      · intro ch hch
        simp [inProgressChunk, makeOpenAiChatChunk, updChoice0] at hch
        subst hch
        rfl
      · exact h3 c hc
    | MessageDelta =>
      refine ⟨makeOpenAiChatChunk (now t) ev.Data model :: chunks, by simp [streamLoop, hev, h1],
        by simp [isProgressEvent, hev, h2], ?_⟩
      intro c hc
      rcases List.mem_cons.mp hc with rfl | hc
      · intro ch hch
        simp [makeOpenAiChatChunk] at hch
        subst hch
        rfl
      · exact h3 c hc
    | ChatCompleted => exact absurd hev hne
    | other name =>
      exact ⟨chunks, by simp [streamLoop, hev, h1], by simp [isProgressEvent, hev, h2], h3⟩

/-- C17: when the event source is closed without a Completed event, the relay
ends having sent one chunk per InProgress or Delta event, none of which has a
finish reason, and no sentinel; in general the sentinel is sent exactly when
the events hold a Completed event. -/
theorem stream_without_completed (k : Coze) (now : Nat → Int) (model : String)
    (events : List ChatEvent) :
    ((∀ e ∈ events, e.Event ≠ ChatEventType.ChatCompleted) →
      ∃ chunks : List CompletionsRsp,
        handleCompletionsStream k now model events = chunks.map SSEData.rsp ∧
        chunks.length = events.countP isProgressEvent ∧
        ∀ c ∈ chunks, ∀ ch ∈ c.Choices, ch.FinishReason = "") ∧
    ((∃ f ∈ handleCompletionsStream k now model events, isDoneFrame f = true) ↔
      ∃ e ∈ events, e.Event = ChatEventType.ChatCompleted) := by
  refine ⟨fun h => streamLoop_no_completed k now model 0 events h, ?_⟩
  have := stream_done_any k now model 0 events
  constructor
  · intro hd
    have h1 : (streamLoop k now model 0 events).any isDoneFrame = true :=
      List.any_eq_true.mpr hd
    rw [this] at h1
    obtain ⟨e, he, hc⟩ := List.any_eq_true.mp h1
    exact ⟨e, he, by simpa using hc⟩
  · rintro ⟨e, he, hc⟩
    have h1 : events.any (fun e => decide (e.Event = ChatEventType.ChatCompleted)) = true :=
      List.any_eq_true.mpr ⟨e, he, by simpa using hc⟩
    rw [← this] at h1
    exact List.any_eq_true.mp h1

/-- C17, witness: the first three events of `sampleEvents` give three chunks
and no sentinel. -/
theorem stream_without_completed_witness :
    (∃ chunks : List CompletionsRsp,
      handleCompletionsStream cozeV3 (fun _ => 0) "gpt" (sampleEvents.take 3) =
        chunks.map SSEData.rsp ∧
      chunks.length = (sampleEvents.take 3).countP isProgressEvent ∧
      ∀ c ∈ chunks, ∀ ch ∈ c.Choices, ch.FinishReason = "") ∧
    (sampleEvents.take 3).countP isProgressEvent = 3 :=
  ⟨(stream_without_completed cozeV3 (fun _ => 0) "gpt" (sampleEvents.take 3)).1 (by decide),
    by decide⟩

/-! ## Runtime failures and the content-type tag -/

/-- C18, evaluation: a user message without content after a system message
makes the merge dereference a nil entry of `msgs`; a JSON `null` in the
`messages` array makes `makeCozeChatReq` dereference a nil message; in both
cases the run fails. -/
theorem makeCozeChatReq_nil_dereference :
    splitMessages cozeV3 ([], [])
        [some { Role := "system", Content := JVal.str "Be concise." },
         some { Role := "user", Content := JVal.null }] =
      some ([some sysConcise], [none]) ∧
    mergeSystemPromptAndUserMessage cozeV3 [some sysConcise] [none] = none ∧
    makeCozeChatReq cozeV3
        { Model := "m",
          Messages := [some { Role := "system", Content := JVal.str "Be concise." },
                       some { Role := "user", Content := JVal.null }],
          Stream := true } = none ∧
    makeCozeChatReq cozeV3 { Model := "m", Messages := [none], Stream := true } = none := by
  refine ⟨by decide, by decide, by decide, by decide⟩

theorem writeSyspText_total (sysp : List ChatMessage) (buff : String) :
    ∃ out, writeSyspText buff (sysp.map some) = some out := by
  induction sysp generalizing buff with
  | nil => exact ⟨buff, by simp [writeSyspText]⟩
  | cons s rest ih =>
    cases hs : s.Content with
    | str x => simpa [writeSyspText, hs] using ih _
    | items x => simpa [writeSyspText, hs] using ih _
    | other => simpa [writeSyspText, hs] using ih _

theorem mergeInto_agrees (k : Coze) (hk : k.ContentTypeText ≠ k.ContentTypeObjectString)
    (sysp : List ChatMessage) (target : ChatMessage) (h : tagAgrees k target = true) :
    ∃ merged, mergeInto k (sysp.map some) target = some merged ∧
      merged.Role = target.Role ∧ tagAgrees k merged = true := by
  obtain ⟨b, hb⟩ := syspTypeText_total k sysp
  obtain ⟨st2, h2⟩ := collectSysp_total k
    ("", [{ Typ := k.ContentTypeText, Text := "", FileUrl := "" }]) sysp
  have hmixed : tagAgrees k ⟨target.Role, Content.items (setHeadText (collectUser k st2 target).1
      (collectUser k st2 target).2), k.ContentTypeObjectString⟩ = true := by
    simp [tagAgrees]
  by_cases hty : target.ContentType = k.ContentTypeText
  · cases b with
    | true =>
      cases hc : target.Content with
      | str str =>
        obtain ⟨buff, h1⟩ := writeSyspText_total sysp ""
        refine ⟨⟨target.Role, Content.str (buff ++ str), target.ContentType⟩, ?_, rfl, ?_⟩
        · simp [mergeInto, hty, hb, h1, hc]
        · simp [tagAgrees, hty]
      | items l =>
        simp [tagAgrees, hc, hty, hk] at h
      | other => simp [tagAgrees, hc] at h
    | false =>
      exact ⟨⟨target.Role, Content.items (setHeadText (collectUser k st2 target).1
        (collectUser k st2 target).2), k.ContentTypeObjectString⟩,
        by simp [mergeInto, hty, hb, h2], rfl, hmixed⟩
  · exact ⟨⟨target.Role, Content.items (setHeadText (collectUser k st2 target).1
      (collectUser k st2 target).2), k.ContentTypeObjectString⟩,
      by simp [mergeInto, hty, h2], rfl, hmixed⟩

/-- C19: a message produced by `transOpenAiMessageContent` carries the text
tag exactly when its content is a string and the object-string tag exactly
when it is a list of parts; on messages whose tag agrees with their content
the merge succeeds (the string assertion of the pure-text path does not fail)
and every message of the result, the merged target included, still agrees.
The two content types are assumed distinct. -/
theorem tags_agree (k : Coze) (hk : k.ContentTypeText ≠ k.ContentTypeObjectString) :
    (∀ (role : String) (c : JVal) (m : ChatMessage), transOpenAiMessageContent k role c = some m →
      tagAgrees k m = true ∧
      (m.ContentType = k.ContentTypeText ↔ ∃ s, m.Content = Content.str s) ∧
      (m.ContentType = k.ContentTypeObjectString ↔ ∃ l, m.Content = Content.items l)) ∧
    (∀ sysp msgs : List ChatMessage, (∀ m ∈ msgs, tagAgrees k m = true) →
      ∃ out : List ChatMessage,
        mergeSystemPromptAndUserMessage k (sysp.map some) (msgs.map some) =
          some (out.map some) ∧
        ∀ m ∈ out, tagAgrees k m = true) := by
  constructor
  · intro role c m hm
    cases c with
    | str x =>
      simp only [transOpenAiMessageContent, Option.some.injEq] at hm
      subst hm
      simp [tagAgrees, hk]
    | arr objs =>
      simp only [transOpenAiMessageContent, Option.some.injEq] at hm
      subst hm
      simp [tagAgrees, Ne.symm hk]
    | null => simp [transOpenAiMessageContent] at hm
    | bool b => simp [transOpenAiMessageContent] at hm
    | num n => simp [transOpenAiMessageContent] at hm
    | obj kvs => simp [transOpenAiMessageContent] at hm
  · intro sysp msgs hmsgs
    by_cases hne : sysp = []
    · subst hne
      exact ⟨msgs, by simp [mergeSystemPromptAndUserMessage], hmsgs⟩
    · rcases last_user_cases k msgs msgs.length (le_refl _) with
        hno | ⟨i, target, hi, hget, hrole, hl⟩
      · refine ⟨msgs, ?_, hmsgs⟩
        have hpos : sysp.length > 0 := List.length_pos.mpr hne
        simp only [mergeSystemPromptAndUserMessage, List.length_map, hpos, if_true]
        exact mergeFrom_no_user k (sysp.map some) msgs msgs.length (le_refl _) hno
      · have hlast : ∀ j m, i < j → msgs[j]? = some m → m.Role ≠ k.RoleUser := by
          intro j m hj hm
          by_cases hjl : j < msgs.length
          · exact hl j m hj hjl hm
          · rw [List.getElem?_eq_none (Nat.le_of_not_lt hjl)] at hm
            cases hm
        obtain ⟨merged, hmerge, _, hag⟩ :=
          mergeInto_agrees k hk sysp target (hmsgs target (List.getElem?_mem hget))
        refine ⟨msgs.set i merged, ?_, ?_⟩
        · rw [merge_at_last_user k sysp msgs i target hne hget hrole hlast, hmerge]
          simp [List.map_set]
        · intro m hm
          rcases List.mem_or_eq_of_mem_set hm with h1 | h1
          · exact hmsgs m h1
          · rw [h1]
            exact hag

/-- C19, witness: at the constants of the Coze v3 API. -/
theorem tags_agree_witness :
    (∀ (role : String) (c : JVal) (m : ChatMessage),
      transOpenAiMessageContent cozeV3 role c = some m →
      tagAgrees cozeV3 m = true ∧
      (m.ContentType = cozeV3.ContentTypeText ↔ ∃ s, m.Content = Content.str s) ∧
      (m.ContentType = cozeV3.ContentTypeObjectString ↔ ∃ l, m.Content = Content.items l)) ∧
    (∀ sysp msgs : List ChatMessage, (∀ m ∈ msgs, tagAgrees cozeV3 m = true) →
      ∃ out : List ChatMessage,
        mergeSystemPromptAndUserMessage cozeV3 (sysp.map some) (msgs.map some) =
          some (out.map some) ∧
        ∀ m ∈ out, tagAgrees cozeV3 m = true) :=
  tags_agree cozeV3 (by decide)

/-! ## The model registry -/

theorem lookup_mem (m : List (String × List String)) (key : String) (v : List String)
    (h : m.lookup key = some v) : (key, v) ∈ m := by
  induction m with
  | nil => simp at h
  | cons p rest ih =>
    obtain ⟨k0, v0⟩ := p
    by_cases hk : key = k0
    · subst hk
      simp [List.lookup_cons] at h
      subst h
      exact List.mem_cons_self _ _
    · have hb : (key == k0) = false := by simpa using hk
      simp only [List.lookup_cons, hb] at h
      exact List.mem_cons_of_mem _ (ih h)

theorem mem_mapSet (m : List (String × List String)) (key : String) (v : List String)
    (p : String × List String) (h : p ∈ mapSet m key v) : p = (key, v) ∨ p ∈ m := by
  induction m with
  | nil =>
    simp [mapSet] at h
    exact Or.inl h
  | cons q rest ih =>
    obtain ⟨k0, v0⟩ := q
    by_cases hk : k0 = key
    · simp only [mapSet, hk, if_true] at h
      rcases List.mem_cons.mp h with h1 | h1
      · exact Or.inl h1
      · exact Or.inr (List.mem_cons_of_mem _ h1)
    · simp only [mapSet, hk, if_false] at h
      rcases List.mem_cons.mp h with h1 | h1
      · exact Or.inr (h1 ▸ List.mem_cons_self _ _)
      · rcases ih h1 with h2 | h2
        · exact Or.inl h2
        · exact Or.inr (List.mem_cons_of_mem _ h2)

theorem lookup_mapSet_isSome (m : List (String × List String)) (key k2 : String)
    (v : List String) (h : (m.lookup k2).isSome = true ∨ k2 = key) :
    ((mapSet m key v).lookup k2).isSome = true := by
  induction m with
  | nil =>
    rcases h with h | h
    · simp at h
    · simp [mapSet, List.lookup_cons, h]
  | cons q rest ih =>
    obtain ⟨k0, v0⟩ := q
    by_cases hk : k0 = key
    · by_cases h2 : k2 = key
      · simp [mapSet, hk, List.lookup_cons, h2]
      · have hb : (k2 == key) = false := by simpa using h2
        rcases h with h | h
        · simpa [mapSet, hk, List.lookup_cons, hb] using h
        · exact absurd h h2
    · by_cases h2 : k2 = k0
      · simp [mapSet, hk, List.lookup_cons, h2]
      · have hb : (k2 == k0) = false := by simpa using h2
        simp only [mapSet, hk, if_false, List.lookup_cons, hb]
        apply ih
        rcases h with h | h
        · left
          simpa [List.lookup_cons, hb] using h
        · exact Or.inr h

theorem lookup_mapDelete_ne (m : List (String × List String)) (key k2 : String)
    (h : k2 ≠ key) : (mapDelete m key).lookup k2 = m.lookup k2 := by
  induction m with
  | nil => rfl
  | cons q rest ih =>
    obtain ⟨k0, v0⟩ := q
    by_cases hk : k0 = key
    · have hb : (k2 == k0) = false := by simpa [hk] using h
      have : mapDelete ((k0, v0) :: rest) key = mapDelete rest key := by
        simp [mapDelete, hk]
      rw [this, ih]
      simp [List.lookup_cons, hb]
    · have : mapDelete ((k0, v0) :: rest) key = (k0, v0) :: mapDelete rest key := by
        simp [mapDelete, hk]
      rw [this]
      simp only [List.lookup_cons]
      rw [ih]

theorem mapGet_registered (bots : List String) (m : List (String × List String))
    (h : entriesOk bots m) (key : String) : ∀ id ∈ mapGet m key, id ∈ bots := by
  intro id hid
  unfold mapGet at hid
  cases hl : m.lookup key with
  | none => simp [hl] at hid
  | some v =>
    simp only [hl] at hid
    exact (h (key, v) (lookup_mem m key v hl)).2 id hid

theorem mapGet_nonempty (bots : List String) (m : List (String × List String))
    (h : entriesOk bots m) (key : String) (hs : (m.lookup key).isSome = true) :
    mapGet m key ≠ [] := by
  unfold mapGet
  cases hl : m.lookup key with
  | none => simp [hl] at hs
  | some v => exact (h (key, v) (lookup_mem m key v hl)).1

theorem entriesOk_append (bots : List String) (m : List (String × List String))
    (h : entriesOk bots m) (key bot : String) (hb : bot ∈ bots) :
    entriesOk bots (mapSet m key (mapGet m key ++ [bot])) := by
  intro p hp
  rcases mem_mapSet m key _ p hp with h1 | h1
  · subst h1
    refine ⟨by simp, ?_⟩
    intro id hid
    rcases List.mem_append.mp hid with h2 | h2
    · exact mapGet_registered bots m h key id h2
    · simp at h2
      exact h2 ▸ hb
  · exact h p h1

theorem bindAll_ok (bots : List String) (bs : List String) (m : List (String × List String))
    (h : entriesOk bots m) (hbs : ∀ b ∈ bs, b ∈ bots)
    (hne : bs ≠ [] ∨ (m.lookup "").isSome = true) :
    entriesOk bots (bindAll m bs) ∧ ((bindAll m bs).lookup "").isSome = true := by
  induction bs generalizing m with
  | nil =>
    rcases hne with h1 | h1
    · exact absurd rfl h1
    · exact ⟨h, h1⟩
  | cons b rest ih =>
    exact ih _ (entriesOk_append bots m h "" b (hbs b (List.mem_cons_self _ _)))
      (fun x hx => hbs x (List.mem_cons_of_mem _ hx))
      (Or.inr (lookup_mapSet_isSome m "" "" _ (Or.inr rfl)))

theorem bindModel_ok (bots : List String) (model : String) (bs : List String)
    (m : List (String × List String)) (h : entriesOk bots m)
    (hs : (m.lookup "").isSome = true) :
    entriesOk bots (bindModel bots m model bs) ∧
      ((bindModel bots m model bs).lookup "").isSome = true := by
  induction bs generalizing m with
  | nil => exact ⟨h, hs⟩
  | cons b rest ih =>
    by_cases hb : b ∈ bots
    · simp only [bindModel, hb, if_true]
      exact ih _ (entriesOk_append bots m h model b hb)
        (lookup_mapSet_isSome m model "" _ (Or.inl hs))
    · simp only [bindModel, hb, if_false]
      exact ih m h hs

theorem bindModels_ok (bots : List String) (cfgModels : List (String × List String))
    (m : List (String × List String)) (h : entriesOk bots m)
    (hs : (m.lookup "").isSome = true) :
    entriesOk bots (bindModels bots m cfgModels) ∧
      ((bindModels bots m cfgModels).lookup "").isSome = true := by
  induction cfgModels generalizing m with
  | nil => exact ⟨h, hs⟩
  | cons p rest ih =>
    obtain ⟨model, bs⟩ := p
    obtain ⟨h1, h2⟩ := bindModel_ok bots model bs m h hs
    by_cases hlen : (mapGet (bindModel bots m model bs) model).length = 0
    · simp only [bindModels, hlen, if_true]
      have hmodel : "" ≠ model := by
        intro heq
        subst heq
        exact mapGet_nonempty bots _ h1 "" h2 (List.length_eq_zero.mp hlen)
      apply ih
      · intro q hq
        exact h1 q (List.mem_of_mem_filter hq)
      · rw [lookup_mapDelete_ne _ model "" hmodel]
        exact h2
    · simp only [bindModels, hlen, if_false]
      exact ih _ h1 h2

theorem registBots_mem (bots bs : List String) : ∀ b ∈ bots, b ∈ registBots bots bs := by
  induction bs generalizing bots with
  | nil => exact fun b hb => hb
  | cons x rest ih =>
    intro b hb
    apply ih
    by_cases hx : x ∈ bots
    · simpa [hx] using hb
    · simp [hx, hb]

/-- The registry of a server built by `NewServer` holds the catch-all entry
and only non-empty lists of registered bots. -/
theorem NewServer_registry (cfg : ServerConfig) (s : Server)
    (h : NewServer cfg = some (Except.ok s)) :
    entriesOk s.bots s.models ∧ (s.models.lookup "").isSome = true := by
  unfold NewServer at h
  cases hb : registAccounts [] cfg.Accounts with
  | none => simp [hb] at h
  | some bots =>
    simp only [hb] at h
    by_cases hlen : bots.length = 0
    · simp [hlen] at h
    · simp only [hlen, if_false, Option.some.injEq, Except.ok.injEq] at h
      subst h
      have hne : bots ≠ [] := fun hnil => hlen (by simp [hnil])
      obtain ⟨h1, h2⟩ := bindAll_ok bots bots [] (fun p hp => by simp at hp)
        (fun b hb => hb) (Or.inl hne)
      exact bindModels_ok bots cfg.Models _ h1 h2

theorem drawBot_registered (s : Server) (ids : List String) (rnd : Nat) (hne : ids ≠ [])
    (hreg : ∀ id ∈ ids, id ∈ s.bots) :
    ∃ id, id ∈ s.bots ∧ drawBot s ids rnd = some (Picked.bot (some id)) := by
  have hpos : 0 < ids.length := List.length_pos.mpr hne
  have hlt : rnd % ids.length < ids.length := Nat.mod_lt _ hpos
  have hmem : ids[rnd % ids.length] ∈ s.bots := hreg _ (List.getElem_mem hlt)
  refine ⟨ids[rnd % ids.length], hmem, ?_⟩
  have hz : ids.length ≠ 0 := Nat.pos_iff_ne_zero.mp hpos
  simp [drawBot, hz, List.getElem?_eq_getElem hlt, hmem]

/-- The choice of a bot on a registry with the catch-all entry and non-empty
lists of registered bots. -/
theorem pickBot_cases (s : Server) (hok : entriesOk s.bots s.models)
    (hall : (s.models.lookup "").isSome = true) (reqModel : String) (rnd : Nat) :
    (s.models.lookup reqModel = none ∧ s.models.length > 1 ∧
      pickBot s reqModel rnd =
        some (Picked.abort 400 ⟨⟨"model_not_found", modelNotFoundMessage reqModel⟩⟩)) ∨
    (¬ (s.models.lookup reqModel = none ∧ s.models.length > 1) ∧
      ∃ id, id ∈ s.bots ∧ pickBot s reqModel rnd = some (Picked.bot (some id))) := by
  by_cases hc : s.models.lookup reqModel = none ∧ s.models.length > 1
  · left
    refine ⟨hc.1, hc.2, ?_⟩
    simp [pickBot, hc.1, hc.2]
  · right
    refine ⟨hc, ?_⟩
    have hcond : ¬ ((s.models.lookup reqModel).isNone = true ∧ s.models.length > 1) := by
      intro hx
      exact hc ⟨by simpa using hx.1, hx.2⟩
    by_cases h1 : s.models.length = 1
    · obtain ⟨id, hid, hd⟩ := drawBot_registered s (mapGet s.models "") rnd
        (mapGet_nonempty s.bots s.models hok "" hall) (mapGet_registered s.bots s.models hok "")
      refine ⟨id, hid, ?_⟩
      show (if (s.models.lookup reqModel).isNone = true ∧ s.models.length > 1 then _
        else if s.models.length = 1 then drawBot s (mapGet s.models "") rnd
        else drawBot s ((s.models.lookup reqModel).getD []) rnd) = _
      rw [if_neg hcond, if_pos h1, hd]
    · cases hl : s.models.lookup reqModel with
      | none =>
        exfalso
        have hpos : s.models.length ≠ 0 := by
          intro hz
          have : s.models = [] := List.length_eq_zero.mp hz
          simp [this] at hall
        exact hc ⟨hl, by omega⟩
      | some ids =>
        have hmem := lookup_mem s.models reqModel ids hl
        obtain ⟨id, hid, hd⟩ := drawBot_registered s ids rnd (hok _ hmem).1 (hok _ hmem).2
        refine ⟨id, hid, ?_⟩
        simp only [pickBot, hl, Option.isNone_some, Bool.false_eq_true, false_and, if_false, h1,
          Option.getD_some, hd]

/-- C16, counterexample: `oneModelConfig` configures exactly one model, yet the
server built from it rejects the unknown model name "foo" with status 400 and
code model_not_found, because its registry holds two entries, the catch-all
one and "gpt-4". -/
theorem model_not_found_counterexample :
    oneModelConfig.Models.length = 1 ∧
    NewServer oneModelConfig = some (Except.ok oneModelServer) ∧
    oneModelServer.models.length = 2 ∧
    pickBot oneModelServer "foo" 0 =
      some (Picked.abort 400 ⟨⟨"model_not_found",
        "The model `foo` does not exist or you do not have access to it."⟩⟩) := by
  refine ⟨by decide, by rfl, by decide, by decide⟩

/-- C16 (amended): on a server built by `NewServer` the request is rejected
with status 400, code model_not_found and the message naming the model exactly
when the model is no entry of the registry and the registry has more than one
entry, the catch-all entry "", which is always there, being one of them; in
every other case a registered bot is selected and nothing is rejected. -/
theorem pickBot_rejects_iff (cfg : ServerConfig) (s : Server)
    (h : NewServer cfg = some (Except.ok s)) (reqModel : String) (rnd : Nat) :
    (pickBot s reqModel rnd =
        some (Picked.abort 400 ⟨⟨"model_not_found", modelNotFoundMessage reqModel⟩⟩) ↔
      (s.models.lookup reqModel = none ∧ s.models.length > 1)) ∧
    ((∃ status err, pickBot s reqModel rnd = some (Picked.abort status err)) ↔
      (s.models.lookup reqModel = none ∧ s.models.length > 1)) ∧
    (¬ (s.models.lookup reqModel = none ∧ s.models.length > 1) →
      ∃ id, id ∈ s.bots ∧ pickBot s reqModel rnd = some (Picked.bot (some id))) ∧
    (s.models.lookup "").isSome = true := by
  obtain ⟨hok, hall⟩ := NewServer_registry cfg s h
  rcases pickBot_cases s hok hall reqModel rnd with ⟨h1, h2, h3⟩ | ⟨h1, id, hid, h3⟩
  · refine ⟨⟨fun _ => ⟨h1, h2⟩, fun _ => h3⟩, ⟨fun _ => ⟨h1, h2⟩, fun _ => ⟨_, _, h3⟩⟩, ?_, hall⟩
    intro hn
    exact absurd ⟨h1, h2⟩ hn
  · refine ⟨⟨?_, fun hc => absurd hc h1⟩, ⟨?_, fun hc => absurd hc h1⟩, fun _ => ⟨id, hid, h3⟩,
      hall⟩
    · intro ha
      rw [h3] at ha
      cases ha
    · rintro ⟨status, err, ha⟩
      rw [h3] at ha
      cases ha

/-- C16, witness: on the server of `sampleConfig` the unknown name "foo" is
rejected, the bound name "gpt-4" and the empty name are served. -/
theorem pickBot_rejects_iff_witness :
    (pickBot sampleServer "foo" 7 =
        some (Picked.abort 400 ⟨⟨"model_not_found", modelNotFoundMessage "foo"⟩⟩) ↔
      (sampleServer.models.lookup "foo" = none ∧ sampleServer.models.length > 1)) ∧
    pickBot sampleServer "foo" 7 =
      some (Picked.abort 400 ⟨⟨"model_not_found",
        "The model `foo` does not exist or you do not have access to it."⟩⟩) ∧
    pickBot sampleServer "gpt-4" 7 = some (Picked.bot (some "b2")) ∧
    pickBot sampleServer "" 7 = some (Picked.bot (some "b2")) :=
  ⟨(pickBot_rejects_iff sampleConfig sampleServer (by rfl) "foo" 7).1, by decide, by decide,
    by decide⟩

/-- C20: on a server built by `NewServer` the registry holds the catch-all
entry "", every entry is a non-empty list of registered bot identifiers, and
every request is either rejected as model_not_found or served by a registered
bot: the random index is drawn from a non-empty list and the bot looked up is
present. -/
theorem registry_sound (cfg : ServerConfig) (s : Server)
    (h : NewServer cfg = some (Except.ok s)) :
    (∃ ids, s.models.lookup "" = some ids) ∧
    (∀ p ∈ s.models, p.2 ≠ [] ∧ ∀ id ∈ p.2, id ∈ s.bots) ∧
    ∀ (reqModel : String) (rnd : Nat),
      pickBot s reqModel rnd =
        some (Picked.abort 400 ⟨⟨"model_not_found", modelNotFoundMessage reqModel⟩⟩) ∨
      ∃ id, id ∈ s.bots ∧ pickBot s reqModel rnd = some (Picked.bot (some id)) := by
  obtain ⟨hok, hall⟩ := NewServer_registry cfg s h
  refine ⟨Option.isSome_iff_exists.mp hall, hok, ?_⟩
  intro reqModel rnd
  rcases pickBot_cases s hok hall reqModel rnd with ⟨_, _, h3⟩ | ⟨_, id, hid, h3⟩
  · exact Or.inl h3
  · exact Or.inr ⟨id, hid, h3⟩

/-- C20, witness: the server built from `sampleConfig`, where the model `ghost`
names no registered bot and gets no entry. -/
theorem registry_sound_witness :
    ((∃ ids, sampleServer.models.lookup "" = some ids) ∧
    (∀ p ∈ sampleServer.models, p.2 ≠ [] ∧ ∀ id ∈ p.2, id ∈ sampleServer.bots) ∧
    ∀ (reqModel : String) (rnd : Nat),
      pickBot sampleServer reqModel rnd =
        some (Picked.abort 400 ⟨⟨"model_not_found", modelNotFoundMessage reqModel⟩⟩) ∨
      ∃ id, id ∈ sampleServer.bots ∧
        pickBot sampleServer reqModel rnd = some (Picked.bot (some id))) ∧
    sampleServer.models = [("", ["b1", "b2"]), ("gpt-4", ["b2"])] :=
  ⟨registry_sound sampleConfig sampleServer (by rfl), by decide⟩

end Coze2OpenAI
